import Mathlib

/-!
# wnet: functional wrappers for `net.Conn` and `net.Listener`

A shallow embedding of `wconn/conn.go` and `wlistener/listener.go`.

Go code runs against a mutable world (sockets, counters captured by closures,
the memory behind a slice).  A Go function of result type `α` is therefore a
function from the world before the call to an `Outcome`: either a normal return
with the result and the world after the call, or a run-time panic.  Go function
values and interface values may be nil; they are modelled by `Option`, and a
call through nil is the run-time panic Go raises for it.

`Wrap` returns a pointer to a struct it has just built.  `wconn.Wrap` and
`wlistener.Wrap` below return the contents of that struct at the moment `Wrap`
returns.  Both struct types and `Override` are exported, so a function that holds
the pointer can apply a directive to the wrapper later on; what a later call finds
behind the pointer is therefore read out of the world, through a `Ptr`, and every
statement about a call names the struct the call finds.
-/

namespace Go

/-- Outcome of running a Go function: normal return, or a run-time panic. -/
inductive Outcome (W : Type) (α : Type) where
  | ret (val : α) (world : W)
  | panics (msg : String) (world : W)
  deriving DecidableEq

/-- An effectful Go computation over the world `W`. -/
abbrev Eff (W : Type) (α : Type) : Type := W → Outcome W α

/-- Message of the panic raised on a call through a nil function or interface. -/
def nilDeref : String := "runtime error: invalid memory address or nil pointer dereference"

/-- Sequencing of two computations: a panic in the first one propagates. -/
def Eff.bind {W α β : Type} (m : Eff W α) (k : α → Eff W β) : Eff W β :=
  fun w =>
    match m w with
    | .ret a w1 => k a w1
    | .panics msg w1 => .panics msg w1

/-- Call of a niladic Go function value; a nil function value panics. -/
def call0 {W β : Type} (f : Option (Eff W β)) : Eff W β :=
  fun w =>
    match f with
    | none => .panics nilDeref w
    | some g => g w

/-- Call of a one-argument Go function value; a nil function value panics. -/
def call1 {W α β : Type} (f : Option (α → Eff W β)) (a : α) : Eff W β :=
  fun w =>
    match f with
    | none => .panics nilDeref w
    | some g => g a w

/-- A Go `error` value; `none` is the nil error. -/
abbrev Error : Type := Option String

/-- Contents of a `[]byte`. -/
abbrev Bytes : Type := List (Fin 256)

/-- Result of a `func([]byte) (int, error)`: the callee shares the backing array of
its argument, so the contents of the slice after the call come with `(int, error)`. -/
abbrev IOResult : Type := Bytes × Int × Error

end Go

namespace time

/-- A `time.Time` instant (nanoseconds); `0` is the zero value. -/
abbrev Time : Type := Int

end time

namespace net

open Go

/-- A `net.Addr` value; `none` is nil (address not known). -/
abbrev Addr : Type := Option String

/-- Method set of a non-nil `net.Conn` value. -/
structure ConnMethods (W : Type) where
  Read : Bytes → Eff W IOResult
  Write : Bytes → Eff W IOResult
  Close : Eff W Error
  LocalAddr : Eff W Addr
  RemoteAddr : Eff W Addr
  SetDeadline : time.Time → Eff W Error
  SetReadDeadline : time.Time → Eff W Error
  SetWriteDeadline : time.Time → Eff W Error

/-- A `net.Conn` interface value; `none` is the nil interface. -/
abbrev Conn (W : Type) : Type := Option (ConnMethods W)

/-- Method set of a non-nil `net.Listener` value. -/
structure ListenerMethods (W : Type) where
  Accept : Eff W (Conn W × Error)
  Close : Eff W Error
  Addr : Eff W Addr

/-- A `net.Listener` interface value; `none` is the nil interface. -/
abbrev Listener (W : Type) : Type := Option (ListenerMethods W)

end net

namespace wconn

open Go

/-- ReadFunc represents a functional (net.Conn).Read implementation. -/
abbrev ReadFunc (W : Type) : Type := Option (Bytes → Eff W IOResult)

/-- WriteFunc represents a functional (net.Conn).Write implementation. -/
abbrev WriteFunc (W : Type) : Type := Option (Bytes → Eff W IOResult)

/-- CloseFunc represents a functional (net.Conn).Close implementation. -/
abbrev CloseFunc (W : Type) : Type := Option (Eff W Error)

/-- LocalAddrFunc represents a functional (net.Conn).LocalAddr implementation. -/
abbrev LocalAddrFunc (W : Type) : Type := Option (Eff W net.Addr)

/-- RemoteAddrFunc represents a functional (net.Conn).RemoteAddr implementation. -/
abbrev RemoteAddrFunc (W : Type) : Type := Option (Eff W net.Addr)

/-- SetDeadlineFunc represents a functional (net.Conn).SetDeadline implementation. -/
abbrev SetDeadlineFunc (W : Type) : Type := Option (time.Time → Eff W Error)

/-- SetReadDeadlineFunc represents a functional (net.Conn).SetReadDeadline implementation. -/
abbrev SetReadDeadlineFunc (W : Type) : Type := Option (time.Time → Eff W Error)

/-- SetWriteDeadlineFunc represents a functional (net.Conn).SetWriteDeadline implementation. -/
abbrev SetWriteDeadlineFunc (W : Type) : Type := Option (time.Time → Eff W Error)

/-- WrappedConn represents a wrapped net.Conn. -/
structure WrappedConn (W : Type) where
  inner : net.Conn W
  onRead : ReadFunc W
  onWrite : WriteFunc W
  onClose : CloseFunc W
  onLocalAddr : LocalAddrFunc W
  onRemoteAddr : RemoteAddrFunc W
  onSetDeadline : SetDeadlineFunc W
  onSetReadDeadline : SetReadDeadlineFunc W
  onSetWriteDeadline : SetWriteDeadlineFunc W

/-- Override represents an override for a net.Conn: a nilable `func(*WrappedConn)`.
The function receives the wrapper under construction and returns it as it left it. -/
abbrev Override (W : Type) : Type := Option (WrappedConn W → Eff W (WrappedConn W))

/-- OnRead sets the override for the inner net.Conn's Read method. -/
def OnRead {W : Type} (fn : ReadFunc W) : Override W :=
  some (fun wc w => .ret { wc with onRead := fn } w)

/-- OnWrite sets the override for the inner net.Conn's Write method. -/
def OnWrite {W : Type} (fn : WriteFunc W) : Override W :=
  some (fun wc w => .ret { wc with onWrite := fn } w)

/-- OnClose sets the override for the inner net.Conn's Close method. -/
def OnClose {W : Type} (fn : CloseFunc W) : Override W :=
  some (fun wc w => .ret { wc with onClose := fn } w)

/-- OnLocalAddr sets the override for the inner net.Conn's LocalAddr method. -/
def OnLocalAddr {W : Type} (fn : LocalAddrFunc W) : Override W :=
  some (fun wc w => .ret { wc with onLocalAddr := fn } w)

/-- OnRemoteAddr sets the override for the inner net.Conn's RemoteAddr method. -/
def OnRemoteAddr {W : Type} (fn : RemoteAddrFunc W) : Override W :=
  some (fun wc w => .ret { wc with onRemoteAddr := fn } w)

/-- OnSetDeadline sets the override for the inner net.Conn's SetDeadline method. -/
def OnSetDeadline {W : Type} (fn : SetDeadlineFunc W) : Override W :=
  some (fun wc w => .ret { wc with onSetDeadline := fn } w)

/-- OnSetReadDeadline sets the override for the inner net.Conn's SetReadDeadline method. -/
def OnSetReadDeadline {W : Type} (fn : SetReadDeadlineFunc W) : Override W :=
  some (fun wc w => .ret { wc with onSetReadDeadline := fn } w)

/-- OnSetWriteDeadline sets the override for the inner net.Conn's SetWriteDeadline method. -/
def OnSetWriteDeadline {W : Type} (fn : SetWriteDeadlineFunc W) : Override W :=
  some (fun wc w => .ret { wc with onSetWriteDeadline := fn } w)

/-- The loop `for _, o := range overrides { o(wc) }` of `Wrap`. -/
def applyOverrides {W : Type} : List (Override W) → WrappedConn W → Eff W (WrappedConn W)
  | [], wc => fun w => .ret wc w
  | o :: os, wc => Eff.bind (call1 o wc) (applyOverrides os)

/-- Wrap wraps a net.Conn with overriden methods.  The method values `conn.Read`, ...
are evaluated when the struct literal is built, which panics on a nil interface.
The result is the struct behind the returned pointer as `Wrap` leaves it. -/
def Wrap {W : Type} (conn : net.Conn W) (overrides : List (Override W)) : Eff W (WrappedConn W) :=
  fun w =>
    match conn with
    | none => .panics nilDeref w
    | some c =>
      applyOverrides overrides
        { inner := conn
          onRead := some c.Read
          onWrite := some c.Write
          onClose := some c.Close
          onLocalAddr := some c.LocalAddr
          onRemoteAddr := some c.RemoteAddr
          onSetDeadline := some c.SetDeadline
          onSetReadDeadline := some c.SetReadDeadline
          onSetWriteDeadline := some c.SetWriteDeadline } w

/-- Read reads data from the connection. -/
def WrappedConn.Read {W : Type} (wc : WrappedConn W) (b : Bytes) : Eff W IOResult :=
  call1 wc.onRead b

/-- Write writes data to the connection. -/
def WrappedConn.Write {W : Type} (wc : WrappedConn W) (b : Bytes) : Eff W IOResult :=
  call1 wc.onWrite b

/-- Close closes the connection. -/
def WrappedConn.Close {W : Type} (wc : WrappedConn W) : Eff W Error :=
  call0 wc.onClose

/-- LocalAddr returns the local network address, if known. -/
def WrappedConn.LocalAddr {W : Type} (wc : WrappedConn W) : Eff W net.Addr :=
  call0 wc.onLocalAddr

/-- RemoteAddr returns the remote network address, if known. -/
def WrappedConn.RemoteAddr {W : Type} (wc : WrappedConn W) : Eff W net.Addr :=
  call0 wc.onRemoteAddr

/-- SetDeadline sets the read and write deadlines associated with the connection. -/
def WrappedConn.SetDeadline {W : Type} (wc : WrappedConn W) (d : time.Time) : Eff W Error :=
  call1 wc.onSetDeadline d

/-- SetReadDeadline sets the deadline for future Read calls. -/
def WrappedConn.SetReadDeadline {W : Type} (wc : WrappedConn W) (d : time.Time) : Eff W Error :=
  call1 wc.onSetReadDeadline d

/-- SetWriteDeadline sets the deadline for future Write calls. -/
def WrappedConn.SetWriteDeadline {W : Type} (wc : WrappedConn W) (d : time.Time) : Eff W Error :=
  call1 wc.onSetWriteDeadline d

end wconn

namespace wlistener

open Go

/-- AcceptFunc represents a functional (net.Listener).Accept implementation. -/
abbrev AcceptFunc (W : Type) : Type := Option (Eff W (net.Conn W × Error))

/-- CloseFunc represents a functional (net.Listener).Close implementation. -/
abbrev CloseFunc (W : Type) : Type := Option (Eff W Error)

/-- AddrFunc represents a functional (net.Listener).Addr implementation. -/
abbrev AddrFunc (W : Type) : Type := Option (Eff W net.Addr)

/-- WrappedListener represents a wrapped net.Listener. -/
structure WrappedListener (W : Type) where
  inner : net.Listener W
  onAccept : AcceptFunc W
  onClose : CloseFunc W
  onAddr : AddrFunc W

/-- Override represents an override for a net.Listener: a nilable `func(*WrappedListener)`. -/
abbrev Override (W : Type) : Type := Option (WrappedListener W → Eff W (WrappedListener W))

/-- OnAccept sets the override for the inner net.Listener's Accept method. -/
def OnAccept {W : Type} (fn : AcceptFunc W) : Override W :=
  some (fun wl w => .ret { wl with onAccept := fn } w)

/-- OnClose sets the override for the inner net.Listener's Close method. -/
def OnClose {W : Type} (fn : CloseFunc W) : Override W :=
  some (fun wl w => .ret { wl with onClose := fn } w)

/-- OnAddr sets the override for the inner net.Listener's Addr method. -/
def OnAddr {W : Type} (fn : AddrFunc W) : Override W :=
  some (fun wl w => .ret { wl with onAddr := fn } w)

/-- The loop `for _, o := range overrides { o(wl) }` of `Wrap`. -/
def applyOverrides {W : Type} :
    List (Override W) → WrappedListener W → Eff W (WrappedListener W)
  | [], wl => fun w => .ret wl w
  | o :: os, wl => Eff.bind (call1 o wl) (applyOverrides os)

/-- Wrap wraps a net.Listener with overriden methods.  The result is the struct
behind the returned pointer as `Wrap` leaves it. -/
def Wrap {W : Type} (listener : net.Listener W) (overrides : List (Override W)) :
    Eff W (WrappedListener W) :=
  fun w =>
    match listener with
    | none => .panics nilDeref w
    | some l =>
      applyOverrides overrides
        { inner := listener
          onAccept := some l.Accept
          onClose := some l.Close
          onAddr := some l.Addr } w

/-- Accept waits for and returns the next connection to the listener. -/
def WrappedListener.Accept {W : Type} (wl : WrappedListener W) : Eff W (net.Conn W × Error) :=
  call0 wl.onAccept

/-- Close closes the listener. -/
def WrappedListener.Close {W : Type} (wl : WrappedListener W) : Eff W Error :=
  call0 wl.onClose

/-- Addr returns the listener's network address. -/
def WrappedListener.Addr {W : Type} (wl : WrappedListener W) : Eff W net.Addr :=
  call0 wl.onAddr

end wlistener

/-! ## Directive lists

`Override` values are closures; a list "built with the On* constructors" is
described by the constructor used and its argument. -/

namespace wconn

open Go

/-- The eight operations of a `net.Conn`, one slot of `WrappedConn` each. -/
inductive Slot where
  | read
  | write
  | close
  | localAddr
  | remoteAddr
  | setDeadline
  | setReadDeadline
  | setWriteDeadline
  deriving DecidableEq

/-- A call `On<X>(fn)` of one of the eight directive constructors. -/
inductive Directive (W : Type) where
  | onRead (fn : ReadFunc W)
  | onWrite (fn : WriteFunc W)
  | onClose (fn : CloseFunc W)
  | onLocalAddr (fn : LocalAddrFunc W)
  | onRemoteAddr (fn : RemoteAddrFunc W)
  | onSetDeadline (fn : SetDeadlineFunc W)
  | onSetReadDeadline (fn : SetReadDeadlineFunc W)
  | onSetWriteDeadline (fn : SetWriteDeadlineFunc W)

/-- The `Override` value the constructor call evaluates to. -/
def Directive.toOverride {W : Type} : Directive W → Override W
  | .onRead fn => OnRead fn
  | .onWrite fn => OnWrite fn
  | .onClose fn => OnClose fn
  | .onLocalAddr fn => OnLocalAddr fn
  | .onRemoteAddr fn => OnRemoteAddr fn
  | .onSetDeadline fn => OnSetDeadline fn
  | .onSetReadDeadline fn => OnSetReadDeadline fn
  | .onSetWriteDeadline fn => OnSetWriteDeadline fn

/-- The variadic argument list `directives...` passed to `Wrap`. -/
def overrides {W : Type} (ds : List (Directive W)) : List (Override W) :=
  ds.map Directive.toOverride

/-- The operation a directive targets. -/
def Directive.slot {W : Type} : Directive W → Slot
  | .onRead _ => .read
  | .onWrite _ => .write
  | .onClose _ => .close
  | .onLocalAddr _ => .localAddr
  | .onRemoteAddr _ => .remoteAddr
  | .onSetDeadline _ => .setDeadline
  | .onSetReadDeadline _ => .setReadDeadline
  | .onSetWriteDeadline _ => .setWriteDeadline

/-- Some directive of the list targets operation `s`. -/
abbrev targets {W : Type} (ds : List (Directive W)) (s : Slot) : Prop :=
  s ∈ ds.map Directive.slot

/-- The function given to the constructor is not nil. -/
def Directive.fnSet {W : Type} : Directive W → Bool
  | .onRead fn => fn.isSome
  | .onWrite fn => fn.isSome
  | .onClose fn => fn.isSome
  | .onLocalAddr fn => fn.isSome
  | .onRemoteAddr fn => fn.isSome
  | .onSetDeadline fn => fn.isSome
  | .onSetReadDeadline fn => fn.isSome
  | .onSetWriteDeadline fn => fn.isSome

/-- The slot that `d` targets holds the function of `d`. -/
def Directive.boundIn {W : Type} (d : Directive W) (wc : WrappedConn W) : Prop :=
  match d with
  | .onRead fn => wc.onRead = fn
  | .onWrite fn => wc.onWrite = fn
  | .onClose fn => wc.onClose = fn
  | .onLocalAddr fn => wc.onLocalAddr = fn
  | .onRemoteAddr fn => wc.onRemoteAddr = fn
  | .onSetDeadline fn => wc.onSetDeadline = fn
  | .onSetReadDeadline fn => wc.onSetReadDeadline = fn
  | .onSetWriteDeadline fn => wc.onSetWriteDeadline = fn

/-- The wrapper once the closure of directive `d` has run on it. -/
def Directive.run {W : Type} (d : Directive W) (wc : WrappedConn W) : WrappedConn W :=
  match d with
  | .onRead fn => { wc with onRead := fn }
  | .onWrite fn => { wc with onWrite := fn }
  | .onClose fn => { wc with onClose := fn }
  | .onLocalAddr fn => { wc with onLocalAddr := fn }
  | .onRemoteAddr fn => { wc with onRemoteAddr := fn }
  | .onSetDeadline fn => { wc with onSetDeadline := fn }
  | .onSetReadDeadline fn => { wc with onSetReadDeadline := fn }
  | .onSetWriteDeadline fn => { wc with onSetWriteDeadline := fn }

/-- Operation `s`, invoked in world `w` on a wrapper whose struct is `wc` at that
time, returns for every argument exactly what the same operation returns when
invoked directly on `c` in `w`. -/
def SameAsOriginalAt {W : Type} (s : Slot) (wc : WrappedConn W) (c : net.ConnMethods W)
    (w : W) : Prop :=
  match s with
  | .read => ∀ b, wc.Read b w = c.Read b w
  | .write => ∀ b, wc.Write b w = c.Write b w
  | .close => wc.Close w = c.Close w
  | .localAddr => wc.LocalAddr w = c.LocalAddr w
  | .remoteAddr => wc.RemoteAddr w = c.RemoteAddr w
  | .setDeadline => ∀ t, wc.SetDeadline t w = c.SetDeadline t w
  | .setReadDeadline => ∀ t, wc.SetReadDeadline t w = c.SetReadDeadline t w
  | .setWriteDeadline => ∀ t, wc.SetWriteDeadline t w = c.SetWriteDeadline t w

/-- Every one of the eight slots holds a function (none is nil). -/
def AllSlotsBound {W : Type} (wc : WrappedConn W) : Prop :=
  wc.onRead.isSome = true ∧ wc.onWrite.isSome = true ∧ wc.onClose.isSome = true ∧
  wc.onLocalAddr.isSome = true ∧ wc.onRemoteAddr.isSome = true ∧
  wc.onSetDeadline.isSome = true ∧ wc.onSetReadDeadline.isSome = true ∧
  wc.onSetWriteDeadline.isSome = true

/-- Slot `s` holds the same function in both wrappers. -/
def SlotEq {W : Type} (s : Slot) (a b : WrappedConn W) : Prop :=
  match s with
  | .read => a.onRead = b.onRead
  | .write => a.onWrite = b.onWrite
  | .close => a.onClose = b.onClose
  | .localAddr => a.onLocalAddr = b.onLocalAddr
  | .remoteAddr => a.onRemoteAddr = b.onRemoteAddr
  | .setDeadline => a.onSetDeadline = b.onSetDeadline
  | .setReadDeadline => a.onSetReadDeadline = b.onSetReadDeadline
  | .setWriteDeadline => a.onSetWriteDeadline = b.onSetWriteDeadline

/-- The struct literal of `Wrap` for a non-nil `conn`: every slot is bound to the
method value of the original. -/
def initial {W : Type} (c : net.ConnMethods W) : WrappedConn W :=
  { inner := some c
    onRead := some c.Read
    onWrite := some c.Write
    onClose := some c.Close
    onLocalAddr := some c.LocalAddr
    onRemoteAddr := some c.RemoteAddr
    onSetDeadline := some c.SetDeadline
    onSetReadDeadline := some c.SetReadDeadline
    onSetWriteDeadline := some c.SetWriteDeadline }

end wconn

namespace wlistener

open Go

/-- The three operations of a `net.Listener`, one slot of `WrappedListener` each. -/
inductive Slot where
  | accept
  | close
  | addr
  deriving DecidableEq

/-- A call `On<X>(fn)` of one of the three directive constructors. -/
inductive Directive (W : Type) where
  | onAccept (fn : AcceptFunc W)
  | onClose (fn : CloseFunc W)
  | onAddr (fn : AddrFunc W)

/-- The `Override` value the constructor call evaluates to. -/
def Directive.toOverride {W : Type} : Directive W → Override W
  | .onAccept fn => OnAccept fn
  | .onClose fn => OnClose fn
  | .onAddr fn => OnAddr fn

/-- The variadic argument list `directives...` passed to `Wrap`. -/
def overrides {W : Type} (ds : List (Directive W)) : List (Override W) :=
  ds.map Directive.toOverride

/-- The operation a directive targets. -/
def Directive.slot {W : Type} : Directive W → Slot
  | .onAccept _ => .accept
  | .onClose _ => .close
  | .onAddr _ => .addr

/-- Some directive of the list targets operation `s`. -/
abbrev targets {W : Type} (ds : List (Directive W)) (s : Slot) : Prop :=
  s ∈ ds.map Directive.slot

/-- The function given to the constructor is not nil. -/
def Directive.fnSet {W : Type} : Directive W → Bool
  | .onAccept fn => fn.isSome
  | .onClose fn => fn.isSome
  | .onAddr fn => fn.isSome

/-- The slot that `d` targets holds the function of `d`. -/
def Directive.boundIn {W : Type} (d : Directive W) (wl : WrappedListener W) : Prop :=
  match d with
  | .onAccept fn => wl.onAccept = fn
  | .onClose fn => wl.onClose = fn
  | .onAddr fn => wl.onAddr = fn

/-- The wrapper once the closure of directive `d` has run on it. -/
def Directive.run {W : Type} (d : Directive W) (wl : WrappedListener W) : WrappedListener W :=
  match d with
  | .onAccept fn => { wl with onAccept := fn }
  | .onClose fn => { wl with onClose := fn }
  | .onAddr fn => { wl with onAddr := fn }

/-- The operation that `d` targets, invoked in world `w` on a wrapper whose struct
is `wl` at that time, has the outcome of a call of the function of `d` in `w` (a
nil function panics in both). -/
def Directive.governsAt {W : Type} (d : Directive W) (wl : WrappedListener W) (w : W) :
    Prop :=
  match d with
  | .onAccept fn => wl.Accept w = call0 fn w
  | .onClose fn => wl.Close w = call0 fn w
  | .onAddr fn => wl.Addr w = call0 fn w

/-- Operation `s`, invoked in world `w` on a wrapper whose struct is `wl` at that
time, returns exactly what the same operation returns when invoked directly on `l`
in `w`. -/
def SameAsOriginalAt {W : Type} (s : Slot) (wl : WrappedListener W)
    (l : net.ListenerMethods W) (w : W) : Prop :=
  match s with
  | .accept => wl.Accept w = l.Accept w
  | .close => wl.Close w = l.Close w
  | .addr => wl.Addr w = l.Addr w

/-- Slot `s` holds the same function in both wrappers. -/
def SlotEq {W : Type} (s : Slot) (a b : WrappedListener W) : Prop :=
  match s with
  | .accept => a.onAccept = b.onAccept
  | .close => a.onClose = b.onClose
  | .addr => a.onAddr = b.onAddr

/-- The struct literal of `Wrap` for a non-nil `listener`. -/
def initial {W : Type} (l : net.ListenerMethods W) : WrappedListener W :=
  { inner := some l
    onAccept := some l.Accept
    onClose := some l.Close
    onAddr := some l.Addr }

/-- Every one of the three slots holds a function (none is nil). -/
def AllSlotsBound {W : Type} (wl : WrappedListener W) : Prop :=
  wl.onAccept.isSome = true ∧ wl.onClose.isSome = true ∧ wl.onAddr.isSome = true

end wlistener

/-! ## Predicates used to state the slot invariant and call sequences -/

namespace Go

/-- Two successive calls of the same computation: the second one runs in the
world the first one left. -/
def twice {W α : Type} (m : Eff W α) : Eff W (α × α) :=
  Eff.bind m (fun a => Eff.bind m (fun b => fun w => .ret (a, b) w))

end Go

namespace wconn

/-- Slot `s` of the wrapper holds a function (is not nil). -/
def SlotBound {W : Type} (s : Slot) (wc : WrappedConn W) : Prop :=
  match s with
  | .read => wc.onRead.isSome = true
  | .write => wc.onWrite.isSome = true
  | .close => wc.onClose.isSome = true
  | .localAddr => wc.onLocalAddr.isSome = true
  | .remoteAddr => wc.onRemoteAddr.isSome = true
  | .setDeadline => wc.onSetDeadline.isSome = true
  | .setReadDeadline => wc.onSetReadDeadline.isSome = true
  | .setWriteDeadline => wc.onSetWriteDeadline.isSome = true

/-- Every directive of the list that is the last one on its operation was built
from a function that is not nil. -/
def LastFnSet {W : Type} (ds : List (Directive W)) : Prop :=
  ∀ pre d post, ds = pre ++ d :: post → ¬ targets post d.slot → d.fnSet = true

end wconn

namespace wlistener

/-- Slot `s` of the wrapper holds a function (is not nil). -/
def SlotBound {W : Type} (s : Slot) (wl : WrappedListener W) : Prop :=
  match s with
  | .accept => wl.onAccept.isSome = true
  | .close => wl.onClose.isSome = true
  | .addr => wl.onAddr.isSome = true

/-- Every directive of the list that is the last one on its operation was built
from a function that is not nil. -/
def LastFnSet {W : Type} (ds : List (Directive W)) : Prop :=
  ∀ pre d post, ds = pre ++ d :: post → ¬ targets post d.slot → d.fnSet = true

end wlistener

/-! ## Predicates used to state frame, layering and commutation properties -/

namespace Go

/-- The world an outcome leaves behind, on return and on panic alike. -/
def Outcome.world {W α : Type} : Outcome W α → W
  | .ret _ w => w
  | .panics _ w => w

end Go

namespace wconn

open Go

/-- The two lists hold, for every operation, the same directives on that operation
in the same order: each is a permutation of the other that keeps the relative
order of the directives targeting the same slot. -/
def SameOrderPerSlot {W : Type} (ds1 ds2 : List (Directive W)) : Prop :=
  ∀ s : Slot, ds1.filter (fun d => decide (d.slot = s))
    = ds2.filter (fun d => decide (d.slot = s))

/-- A `*WrappedConn` in use after construction: the struct it points to lives in
the world, and functions running in that world may write it. -/
abbrev Ptr (W : Type) : Type := W → WrappedConn W

/-- Running `m` in world `w` leaves the struct behind `p` as it was. -/
def Ptr.keptBy {W α : Type} (p : Ptr W) (m : Eff W α) (w : W) : Prop :=
  p (m w).world = p w

end wconn

namespace wlistener

open Go

/-- The two lists hold, for every operation, the same directives on that operation
in the same order. -/
def SameOrderPerSlot {W : Type} (ds1 ds2 : List (Directive W)) : Prop :=
  ∀ s : Slot, ds1.filter (fun d => decide (d.slot = s))
    = ds2.filter (fun d => decide (d.slot = s))

/-- A `*WrappedListener` in use after construction: the struct it points to lives
in the world. -/
abbrev Ptr (W : Type) : Type := W → WrappedListener W

/-- Running `m` in world `w` leaves the struct behind `p` as it was. -/
def Ptr.keptBy {W α : Type} (p : Ptr W) (m : Eff W α) (w : W) : Prop :=
  p (m w).world = p w

end wlistener

/-! ## Stand-ins used to evaluate the wrappers on concrete inputs -/

namespace fixture

open Go

/-- State behind the stand-ins: one end of an in-memory pipe, and the counters
that the replacement functions of the scenarios keep. -/
structure World where
  incoming : Bytes
  written : Bytes
  closed : Bool
  readDeadline : time.Time
  writeDeadline : time.Time
  accepted : Nat
  counted : Nat
  scripted : Nat
  deriving DecidableEq

/-- A pipe with three bytes waiting, nothing written, no deadline. -/
def world0 : World :=
  { incoming := [1, 2, 3]
    written := []
    closed := false
    readDeadline := 0
    writeDeadline := 0
    accepted := 0
    counted := 0
    scripted := 0 }

/-- An in-memory pipe end as a `net.Conn`. -/
def pipeConn : net.ConnMethods World :=
  { Read := fun b w =>
      if w.closed then .ret (b, 0, some "io: read/write on closed pipe") w
      else if w.incoming = [] then .ret (b, 0, some "EOF") w
      else
        let n := min b.length w.incoming.length
        .ret (w.incoming.take n ++ b.drop n, (n : Int), none)
          { w with incoming := w.incoming.drop n }
    Write := fun b w =>
      if w.closed then .ret (b, 0, some "io: read/write on closed pipe") w
      else .ret (b, (b.length : Int), none) { w with written := w.written ++ b }
    Close := fun w =>
      if w.closed then .ret (some "io: read/write on closed pipe") w
      else .ret none { w with closed := true }
    LocalAddr := fun w => .ret (some "pipe:local") w
    RemoteAddr := fun w => .ret (some "pipe:remote") w
    SetDeadline := fun t w => .ret none { w with readDeadline := t, writeDeadline := t }
    SetReadDeadline := fun t w => .ret none { w with readDeadline := t }
    SetWriteDeadline := fun t w => .ret none { w with writeDeadline := t } }

/-- A pre-built fake connection: reads report EOF, writes are discarded. -/
def fakeConn : net.ConnMethods World :=
  { Read := fun b w => .ret (b, 0, some "EOF") w
    Write := fun b w => .ret (b, (b.length : Int), none) w
    Close := fun w => .ret none w
    LocalAddr := fun w => .ret (some "fake") w
    RemoteAddr := fun w => .ret (some "fake") w
    SetDeadline := fun _ w => .ret none w
    SetReadDeadline := fun _ w => .ret none w
    SetWriteDeadline := fun _ w => .ret none w }

/-- A listener handing out the pipe end and counting the connections accepted. -/
def pipeListener : net.ListenerMethods World :=
  { Accept := fun w =>
      if w.closed then .ret (none, some "use of closed network connection") w
      else .ret (some pipeConn, none) { w with accepted := w.accepted + 1 }
    Close := fun w => .ret none { w with closed := true }
    Addr := fun w => .ret (some "pipe:listen") w }

/-- Read replacement: always the fixed byte sequence `7, 9` (as much of it as the
buffer takes) and EOF. -/
def fixedRead : Bytes → Eff World IOResult :=
  fun b w =>
    let n := min 2 b.length
    .ret (([7, 9] : Bytes).take n ++ b.drop n, (n : Int), some "EOF") w

/-- Write replacement: counts the bytes into a counter and writes nothing. -/
def countingWrite : Bytes → Eff World IOResult :=
  fun b w => .ret (b, (b.length : Int), none) { w with counted := w.counted + b.length }

/-- Accept replacement: the fake connection on its first invocation, an error on
every later one; it counts its own invocations. -/
def scriptedAccept : Eff World (net.Conn World × Error) :=
  fun w =>
    if w.scripted = 0 then .ret (some fakeConn, none) { w with scripted := 1 }
    else .ret (none, some "no more connections") { w with scripted := w.scripted + 1 }

/-- Address replacement. -/
def fixedAddr : Eff World net.Addr :=
  fun w => .ret (some "10.0.0.1:80") w

/-- World of the scenario in which a replacement function holds the pointer to the
wrapper it is bound in: `patched` records that the directive `OnRead(patchRead)`,
kept by the caller, has been applied to that wrapper. -/
structure Heap where
  patched : Bool
  sent : Nat
  deriving DecidableEq

/-- The world right after `Wrap` returned. -/
def heap0 : Heap := { patched := false, sent := 0 }

/-- The original connection of the scenario. -/
def heapConn : net.ConnMethods Heap :=
  { Read := fun b h => .ret (b, 0, some "EOF") h
    Write := fun b h => .ret (b, (b.length : Int), none) { h with sent := h.sent + b.length }
    Close := fun h => .ret none h
    LocalAddr := fun h => .ret (some "heap:local") h
    RemoteAddr := fun h => .ret (some "heap:remote") h
    SetDeadline := fun _ h => .ret none h
    SetReadDeadline := fun _ h => .ret none h
    SetWriteDeadline := fun _ h => .ret none h }

/-- A listener of the scenario: it hands out the original connection. -/
def heapListener : net.ListenerMethods Heap :=
  { Accept := fun h => .ret (some heapConn, none) h
    Close := fun h => .ret none h
    Addr := fun h => .ret (some "heap:listen") h }

/-- The function of the directive `patch := OnRead(patchRead)` kept by the caller. -/
def patchRead : Bytes → Eff Heap IOResult :=
  fun b h =>
    let n := min 1 b.length
    .ret (([7] : Bytes).take n ++ b.drop n, (n : Int), none) h

/-- Write replacement `func(b) { patch(w.(*WrappedConn)); return len(b), nil }`,
where `w` is the wrapper it is bound in: it applies the kept directive to that
wrapper and reports the bytes as written. -/
def patchingWrite : Bytes → Eff Heap IOResult :=
  fun b h => .ret (b, (b.length : Int), none) { h with patched := true }

/-- The struct behind the pointer that `Wrap(heapConn, OnWrite(patchingWrite))`
returned, as found in the world: the read slot holds `patchRead` once the kept
directive has been applied. -/
def heapWrapper : wconn.Ptr Heap :=
  fun h =>
    if h.patched then
      { wconn.initial heapConn with
        onWrite := some patchingWrite, onRead := some patchRead }
    else { wconn.initial heapConn with onWrite := some patchingWrite }

/-- A connection every operation of which leaves a trace: each call counts itself
in `counted`. -/
def tripConn : net.ConnMethods World :=
  { Read := fun b w => .ret (b, 0, none) { w with counted := w.counted + 1 }
    Write := fun b w => .ret (b, 0, none) { w with counted := w.counted + 1 }
    Close := fun w => .ret none { w with counted := w.counted + 1 }
    LocalAddr := fun w => .ret none { w with counted := w.counted + 1 }
    RemoteAddr := fun w => .ret none { w with counted := w.counted + 1 }
    SetDeadline := fun _ w => .ret none { w with counted := w.counted + 1 }
    SetReadDeadline := fun _ w => .ret none { w with counted := w.counted + 1 }
    SetWriteDeadline := fun _ w => .ret none { w with counted := w.counted + 1 } }

/-- A listener every operation of which counts itself in `counted`. -/
def tripListener : net.ListenerMethods World :=
  { Accept := fun w => .ret (none, none) { w with counted := w.counted + 1 }
    Close := fun w => .ret none { w with counted := w.counted + 1 }
    Addr := fun w => .ret none { w with counted := w.counted + 1 } }

/-- World of the listener scenarios in which a replacement function holds the
pointer to the wrapper it is bound in: `rebound` records that the directive
`OnAccept(laterAccept)`, kept by the caller, has been applied to that wrapper, and
`calls` counts the runs of `rebindingAccept`. -/
structure LHeap where
  rebound : Bool
  calls : Nat
  deriving DecidableEq

/-- The world right after `Wrap` returned. -/
def lheap0 : LHeap := { rebound := false, calls := 0 }

/-- The original listener of the listener scenarios. -/
def lheapListener : net.ListenerMethods LHeap :=
  { Accept := fun h => .ret (none, some "from the original") h
    Close := fun h => .ret none h
    Addr := fun h => .ret (some "lheap:listen") h }

/-- The function of the directive `patch := OnAccept(laterAccept)` kept by the
caller. -/
def laterAccept : Eff LHeap (net.Conn LHeap × Error) :=
  fun h => .ret (none, some "from the kept directive") h

/-- Close replacement `func() error { patch(wl.(*WrappedListener)); return nil }`,
where `wl` is the wrapper it is bound in. -/
def patchingClose : Eff LHeap Error :=
  fun h => .ret none { h with rebound := true }

/-- The struct behind the pointer that `Wrap(lheapListener, OnClose(patchingClose))`
returned, as found in the world. -/
def closeWrapper : wlistener.Ptr LHeap :=
  fun h =>
    if h.rebound then
      { wlistener.initial lheapListener with
        onClose := some patchingClose, onAccept := some laterAccept }
    else { wlistener.initial lheapListener with onClose := some patchingClose }

/-- Accept replacement `f`: it counts its own runs, applies the kept directive to
the wrapper it is bound in, and reports an error of its own. -/
def rebindingAccept : Eff LHeap (net.Conn LHeap × Error) :=
  fun h => .ret (none, some "from f") { rebound := true, calls := h.calls + 1 }

/-- The struct behind the pointer that `Wrap(lheapListener, OnAccept(rebindingAccept))`
returned, as found in the world. -/
def acceptWrapper : wlistener.Ptr LHeap :=
  fun h =>
    if h.rebound then { wlistener.initial lheapListener with onAccept := some laterAccept }
    else { wlistener.initial lheapListener with onAccept := some rebindingAccept }

end fixture

/-! ## Construction: what `Wrap` computes on a directive list -/

namespace wconn

open Go

theorem conn_applyOverrides_overrides {W : Type} (ds : List (Directive W)) (wc : WrappedConn W)
    (w : W) :
    applyOverrides (overrides ds) wc w = .ret (ds.foldl (fun acc d => d.run acc) wc) w := by
  induction ds generalizing wc with
  | nil => rfl
  | cons d ds ih =>
    have step : applyOverrides (overrides (d :: ds)) wc w
        = applyOverrides (overrides ds) (d.run wc) w := by
      cases d <;> rfl
    rw [step, ih]
    rfl

theorem conn_Wrap_overrides {W : Type} (c : net.ConnMethods W) (ds : List (Directive W)) (w : W) :
    Wrap (some c) (overrides ds) w
      = .ret (ds.foldl (fun acc d => d.run acc) (initial c)) w :=
  conn_applyOverrides_overrides ds (initial c) w

theorem conn_slotEq_trans {W : Type} {s : Slot} {a b c : WrappedConn W}
    (h1 : SlotEq s a b) (h2 : SlotEq s b c) : SlotEq s a c := by
  cases s <;> exact Eq.trans h1 h2

theorem conn_slotEq_refl {W : Type} (s : Slot) (a : WrappedConn W) : SlotEq s a a := by
  cases s <;> exact rfl

theorem conn_run_slotEq {W : Type} (d : Directive W) (wc : WrappedConn W) (s : Slot)
    (h : d.slot ≠ s) : SlotEq s (d.run wc) wc := by
  cases d <;> cases s <;> first | exact rfl | exact absurd rfl h

theorem conn_foldl_slotEq {W : Type} (ds : List (Directive W)) (wc : WrappedConn W) (s : Slot)
    (h : ¬ targets ds s) : SlotEq s (ds.foldl (fun acc d => d.run acc) wc) wc := by
  induction ds generalizing wc with
  | nil => exact conn_slotEq_refl s wc
  | cons d ds ih =>
    have hd : d.slot ≠ s := fun e => h (by simp [targets, e])
    have hs : ¬ targets ds s := fun e => h (by
      simp only [targets, List.map_cons, List.mem_cons]
      exact Or.inr e)
    exact conn_slotEq_trans (ih (d.run wc) hs) (conn_run_slotEq d wc s hd)

theorem conn_run_boundIn {W : Type} (d : Directive W) (wc : WrappedConn W) :
    d.boundIn (d.run wc) := by
  cases d <;> exact rfl

theorem conn_boundIn_of_slotEq {W : Type} (d : Directive W) (a b : WrappedConn W)
    (h : SlotEq d.slot a b) (hb : d.boundIn b) : d.boundIn a := by
  cases d <;> exact Eq.trans h hb

theorem conn_foldl_boundIn {W : Type} (pre post : List (Directive W)) (d : Directive W)
    (wc : WrappedConn W) (h : ¬ targets post d.slot) :
    d.boundIn ((pre ++ d :: post).foldl (fun acc d => d.run acc) wc) := by
  rw [List.foldl_append, List.foldl_cons]
  exact conn_boundIn_of_slotEq d _ _ (conn_foldl_slotEq post _ d.slot h) (conn_run_boundIn d _)

end wconn

/-! ## Connection wrapper: precedence, error transparency -/

/-- C2 (override precedence): for every original connection `c` and every directive
list `pre ++ d :: post` in which no directive after `d` targets the operation of
`d` (so `d` is the last directive targeting it), `Wrap` returns without error a
wrapper whose slot for that operation holds the function of `d`, whatever `pre`
holds: not the function of an earlier directive, not the method of `c`. -/
theorem wconn_override_precedence {W : Type} (c : net.ConnMethods W)
    (pre post : List (wconn.Directive W)) (d : wconn.Directive W) (w : W)
    (hlast : ¬ wconn.targets post d.slot) :
    ∃ wc, wconn.Wrap (some c) (wconn.overrides (pre ++ d :: post)) w = .ret wc w ∧
      d.boundIn wc :=
  ⟨_, wconn.conn_Wrap_overrides c (pre ++ d :: post) w,
    wconn.conn_foldl_boundIn pre post d (wconn.initial c) hlast⟩

/-- C2 at a concrete input: two directives D1, D2 on Read, in that order; the
wrapper is built without error and a Read runs the function of D2. -/
theorem wconn_override_precedence_witness :
    ¬ wconn.targets ([] : List (wconn.Directive fixture.World)) wconn.Slot.read ∧
    ∃ wc, wconn.Wrap (some fixture.pipeConn)
        (wconn.overrides [wconn.Directive.onRead (some fixture.fixedRead),
          wconn.Directive.onRead (some fixture.fakeConn.Read)]) fixture.world0
        = .ret wc fixture.world0 ∧
      wc.onRead = some fixture.fakeConn.Read ∧
      wc.Read [0, 0] fixture.world0 = .ret ([0, 0], 0, some "EOF") fixture.world0 := by
  have hnot : ¬ wconn.targets ([] : List (wconn.Directive fixture.World))
      wconn.Slot.read := by decide
  obtain ⟨wc, hw, hb⟩ := wconn_override_precedence fixture.pipeConn
    [wconn.Directive.onRead (some fixture.fixedRead)] []
    (wconn.Directive.onRead (some fixture.fakeConn.Read)) fixture.world0 hnot
  have hr : wc.onRead = some fixture.fakeConn.Read := hb
  refine ⟨hnot, wc, hw, hr, ?_⟩
  simp only [wconn.WrappedConn.Read, hr]
  rfl

/-- C3 (error transparency): on every wrapped connection and every wrapped
listener, each of the 8 + 3 operations, called with any argument in any world,
returns exactly the outcome (values, error and effect together) of the function
bound to its slot applied to the same argument in the same world. -/
theorem wrapper_error_transparency {W : Type} (wc : wconn.WrappedConn W)
    (wl : wlistener.WrappedListener W) :
    (∀ f, wc.onRead = some f → ∀ b w, wc.Read b w = f b w) ∧
    (∀ f, wc.onWrite = some f → ∀ b w, wc.Write b w = f b w) ∧
    (∀ f, wc.onClose = some f → ∀ w, wc.Close w = f w) ∧
    (∀ f, wc.onLocalAddr = some f → ∀ w, wc.LocalAddr w = f w) ∧
    (∀ f, wc.onRemoteAddr = some f → ∀ w, wc.RemoteAddr w = f w) ∧
    (∀ f, wc.onSetDeadline = some f → ∀ t w, wc.SetDeadline t w = f t w) ∧
    (∀ f, wc.onSetReadDeadline = some f → ∀ t w, wc.SetReadDeadline t w = f t w) ∧
    (∀ f, wc.onSetWriteDeadline = some f → ∀ t w, wc.SetWriteDeadline t w = f t w) ∧
    (∀ f, wl.onAccept = some f → ∀ w, wl.Accept w = f w) ∧
    (∀ f, wl.onClose = some f → ∀ w, wl.Close w = f w) ∧
    (∀ f, wl.onAddr = some f → ∀ w, wl.Addr w = f w) := by
  refine ⟨?_, ?_, ?_, ?_, ?_, ?_, ?_, ?_, ?_, ?_, ?_⟩ <;> intro f hf
  · intro b w; simp [wconn.WrappedConn.Read, hf, Go.call1]
  · intro b w; simp [wconn.WrappedConn.Write, hf, Go.call1]
  · intro w; simp [wconn.WrappedConn.Close, hf, Go.call0]
  · intro w; simp [wconn.WrappedConn.LocalAddr, hf, Go.call0]
  · intro w; simp [wconn.WrappedConn.RemoteAddr, hf, Go.call0]
  · intro t w; simp [wconn.WrappedConn.SetDeadline, hf, Go.call1]
  · intro t w; simp [wconn.WrappedConn.SetReadDeadline, hf, Go.call1]
  · intro t w; simp [wconn.WrappedConn.SetWriteDeadline, hf, Go.call1]
  · intro w; simp [wlistener.WrappedListener.Accept, hf, Go.call0]
  · intro w; simp [wlistener.WrappedListener.Close, hf, Go.call0]
  · intro w; simp [wlistener.WrappedListener.Addr, hf, Go.call0]

/-- C3 at a concrete input: a wrapper whose write slot holds the pipe's Write, used
once the pipe is closed, returns the pipe's own count and error, unchanged; a
listener wrapper whose accept slot holds the scripted function returns its
connection and nil error. -/
theorem wrapper_error_transparency_witness :
    (wconn.initial fixture.pipeConn).onWrite = some fixture.pipeConn.Write ∧
    (wconn.initial fixture.pipeConn).Write [5] { fixture.world0 with closed := true }
      = .ret ([5], 0, some "io: read/write on closed pipe")
          { fixture.world0 with closed := true } ∧
    ({ wlistener.initial fixture.pipeListener with
        onAccept := some fixture.scriptedAccept }).Accept fixture.world0
      = .ret (some fixture.fakeConn, none) { fixture.world0 with scripted := 1 } := by
  have h := wrapper_error_transparency (wconn.initial fixture.pipeConn)
    { wlistener.initial fixture.pipeListener with onAccept := some fixture.scriptedAccept }
  refine ⟨rfl, ?_, ?_⟩
  · rw [h.2.1 fixture.pipeConn.Write rfl]
    rfl
  · rw [h.2.2.2.2.2.2.2.2.1 fixture.scriptedAccept rfl]
    rfl

/-! ## Listener wrapper -/

namespace wlistener

open Go

theorem listener_applyOverrides_overrides {W : Type} (ds : List (Directive W))
    (wl : WrappedListener W) (w : W) :
    applyOverrides (overrides ds) wl w = .ret (ds.foldl (fun acc d => d.run acc) wl) w := by
  induction ds generalizing wl with
  | nil => rfl
  | cons d ds ih =>
    have step : applyOverrides (overrides (d :: ds)) wl w
        = applyOverrides (overrides ds) (d.run wl) w := by
      cases d <;> rfl
    rw [step, ih]
    rfl

theorem listener_Wrap_overrides {W : Type} (l : net.ListenerMethods W) (ds : List (Directive W))
    (w : W) :
    Wrap (some l) (overrides ds) w
      = .ret (ds.foldl (fun acc d => d.run acc) (initial l)) w :=
  listener_applyOverrides_overrides ds (initial l) w

theorem listener_slotEq_trans {W : Type} {s : Slot} {a b c : WrappedListener W}
    (h1 : SlotEq s a b) (h2 : SlotEq s b c) : SlotEq s a c := by
  cases s <;> exact Eq.trans h1 h2

theorem listener_slotEq_refl {W : Type} (s : Slot) (a : WrappedListener W) : SlotEq s a a := by
  cases s <;> exact rfl

theorem listener_run_slotEq {W : Type} (d : Directive W) (wl : WrappedListener W) (s : Slot)
    (h : d.slot ≠ s) : SlotEq s (d.run wl) wl := by
  cases d <;> cases s <;> first | exact rfl | exact absurd rfl h

theorem listener_foldl_slotEq {W : Type} (ds : List (Directive W)) (wl : WrappedListener W)
    (s : Slot) (h : ¬ targets ds s) :
    SlotEq s (ds.foldl (fun acc d => d.run acc) wl) wl := by
  induction ds generalizing wl with
  | nil => exact listener_slotEq_refl s wl
  | cons d ds ih =>
    have hd : d.slot ≠ s := fun e => h (by simp [targets, e])
    have hs : ¬ targets ds s := fun e => h (by
      simp only [targets, List.map_cons, List.mem_cons]
      exact Or.inr e)
    exact listener_slotEq_trans (ih (d.run wl) hs) (listener_run_slotEq d wl s hd)

theorem listener_run_boundIn {W : Type} (d : Directive W) (wl : WrappedListener W) :
    d.boundIn (d.run wl) := by
  cases d <;> exact rfl

theorem listener_boundIn_of_slotEq {W : Type} (d : Directive W) (a b : WrappedListener W)
    (h : SlotEq d.slot a b) (hb : d.boundIn b) : d.boundIn a := by
  cases d <;> exact Eq.trans h hb

theorem listener_foldl_boundIn {W : Type} (pre post : List (Directive W)) (d : Directive W)
    (wl : WrappedListener W) (h : ¬ targets post d.slot) :
    d.boundIn ((pre ++ d :: post).foldl (fun acc d => d.run acc) wl) := by
  rw [List.foldl_append, List.foldl_cons]
  exact listener_boundIn_of_slotEq d _ _ (listener_foldl_slotEq post _ d.slot h)
    (listener_run_boundIn d _)

end wlistener

/-! ## Slot invariant and construction -/

namespace wconn

open Go

theorem conn_exists_last {W : Type} (ds : List (Directive W)) (s : Slot) (h : targets ds s) :
    ∃ pre d post, ds = pre ++ d :: post ∧ d.slot = s ∧ ¬ targets post s := by
  induction ds with
  | nil => simp [targets] at h
  | cons d ds ih =>
    by_cases hs : targets ds s
    · obtain ⟨pre, d1, post, hds, hd, hp⟩ := ih hs
      exact ⟨d :: pre, d1, post, by rw [hds]; rfl, hd, hp⟩
    · have hd : d.slot = s := by
        simp only [targets, List.map_cons, List.mem_cons] at h
        rcases h with h | h
        · exact h.symm
        · exact absurd h hs
      exact ⟨[], d, ds, rfl, hd, hs⟩

theorem conn_allSlotsBound_iff {W : Type} (wc : WrappedConn W) :
    AllSlotsBound wc ↔ ∀ s, SlotBound s wc := by
  constructor
  · rintro ⟨h1, h2, h3, h4, h5, h6, h7, h8⟩ s
    cases s <;> assumption
  · intro h
    exact ⟨h .read, h .write, h .close, h .localAddr, h .remoteAddr, h .setDeadline,
      h .setReadDeadline, h .setWriteDeadline⟩

theorem conn_slotBound_initial {W : Type} (s : Slot) (wc : WrappedConn W) (c : net.ConnMethods W)
    (h : SlotEq s wc (initial c)) : SlotBound s wc := by
  cases s <;> simp only [SlotEq, initial] at h <;> simp [SlotBound, h]

theorem conn_slotBound_iff_fnSet {W : Type} (d : Directive W) (wc : WrappedConn W)
    (h : d.boundIn wc) : SlotBound d.slot wc ↔ d.fnSet = true := by
  cases d <;> simp only [Directive.boundIn] at h <;>
    simp [SlotBound, Directive.slot, Directive.fnSet, h]

theorem conn_allSlotsBound_foldl_iff {W : Type} (c : net.ConnMethods W) (ds : List (Directive W)) :
    AllSlotsBound (ds.foldl (fun acc d => d.run acc) (initial c)) ↔ LastFnSet ds := by
  rw [conn_allSlotsBound_iff]
  constructor
  · intro h pre d post hds hpost
    subst hds
    exact (conn_slotBound_iff_fnSet d _ (conn_foldl_boundIn pre post d (initial c) hpost)).mp
      (h d.slot)
  · intro h s
    by_cases hs : targets ds s
    · obtain ⟨pre, d, post, hds, hd, hp⟩ := conn_exists_last ds s hs
      subst hd
      have hb : d.boundIn (ds.foldl (fun acc d => d.run acc) (initial c)) := by
        rw [hds]
        exact conn_foldl_boundIn pre post d (initial c) hp
      exact (conn_slotBound_iff_fnSet d _ hb).mpr (h pre d post hds hp)
    · exact conn_slotBound_initial s _ c (conn_foldl_slotEq ds _ s hs)

theorem conn_lastFnSet_of_all {W : Type} (ds : List (Directive W))
    (h : ∀ d ∈ ds, d.fnSet = true) : LastFnSet ds := by
  intro pre d post hds _
  exact h d (by simp [hds])

end wconn

namespace wlistener

open Go

theorem listener_exists_last {W : Type} (ds : List (Directive W)) (s : Slot) (h : targets ds s) :
    ∃ pre d post, ds = pre ++ d :: post ∧ d.slot = s ∧ ¬ targets post s := by
  induction ds with
  | nil => simp [targets] at h
  | cons d ds ih =>
    by_cases hs : targets ds s
    · obtain ⟨pre, d1, post, hds, hd, hp⟩ := ih hs
      exact ⟨d :: pre, d1, post, by rw [hds]; rfl, hd, hp⟩
    · have hd : d.slot = s := by
        simp only [targets, List.map_cons, List.mem_cons] at h
        rcases h with h | h
        · exact h.symm
        · exact absurd h hs
      exact ⟨[], d, ds, rfl, hd, hs⟩

theorem listener_allSlotsBound_iff {W : Type} (wl : WrappedListener W) :
    AllSlotsBound wl ↔ ∀ s, SlotBound s wl := by
  constructor
  · rintro ⟨h1, h2, h3⟩ s
    cases s <;> assumption
  · intro h
    exact ⟨h .accept, h .close, h .addr⟩

theorem listener_slotBound_initial {W : Type} (s : Slot) (wl : WrappedListener W)
    (l : net.ListenerMethods W) (h : SlotEq s wl (initial l)) : SlotBound s wl := by
  cases s <;> simp only [SlotEq, initial] at h <;> simp [SlotBound, h]

theorem listener_slotBound_iff_fnSet {W : Type} (d : Directive W) (wl : WrappedListener W)
    (h : d.boundIn wl) : SlotBound d.slot wl ↔ d.fnSet = true := by
  cases d <;> simp only [Directive.boundIn] at h <;>
    simp [SlotBound, Directive.slot, Directive.fnSet, h]

theorem listener_allSlotsBound_foldl_iff {W : Type} (l : net.ListenerMethods W)
    (ds : List (Directive W)) :
    AllSlotsBound (ds.foldl (fun acc d => d.run acc) (initial l)) ↔ LastFnSet ds := by
  rw [listener_allSlotsBound_iff]
  constructor
  · intro h pre d post hds hpost
    subst hds
    exact (listener_slotBound_iff_fnSet d _
      (listener_foldl_boundIn pre post d (initial l) hpost)).mp (h d.slot)
  · intro h s
    by_cases hs : targets ds s
    · obtain ⟨pre, d, post, hds, hd, hp⟩ := listener_exists_last ds s hs
      subst hd
      have hb : d.boundIn (ds.foldl (fun acc d => d.run acc) (initial l)) := by
        rw [hds]
        exact listener_foldl_boundIn pre post d (initial l) hp
      exact (listener_slotBound_iff_fnSet d _ hb).mpr (h pre d post hds hp)
    · exact listener_slotBound_initial s _ l (listener_foldl_slotEq ds _ s hs)

theorem listener_lastFnSet_of_all {W : Type} (ds : List (Directive W))
    (h : ∀ d ∈ ds, d.fnSet = true) : LastFnSet ds := by
  intro pre d post hds _
  exact h d (by simp [hds])

end wlistener

/-- C5 fails as stated: the constructors accept a nil function, and `OnRead(nil)`
(resp. `OnAccept(nil)`) leaves the read (resp. accept) slot of the wrapper nil, so
that Read (resp. Accept) on the wrapper panics instead of reaching a function. -/
theorem slot_invariant_counterexample :
    (∃ wc, wconn.Wrap (some fixture.pipeConn)
        (wconn.overrides [wconn.Directive.onRead none]) fixture.world0
        = .ret wc fixture.world0 ∧
      wc.onRead = none ∧ ¬ wconn.AllSlotsBound wc ∧
      wc.Read [0] fixture.world0 = .panics Go.nilDeref fixture.world0) ∧
    (∃ wl, wlistener.Wrap (some fixture.pipeListener)
        (wlistener.overrides [wlistener.Directive.onAccept none]) fixture.world0
        = .ret wl fixture.world0 ∧
      wl.onAccept = none ∧ ¬ wlistener.AllSlotsBound wl ∧
      wl.Accept fixture.world0 = .panics Go.nilDeref fixture.world0) := by
  refine ⟨⟨_, rfl, rfl, ?_, rfl⟩, ⟨_, rfl, rfl, ?_, rfl⟩⟩
  · intro h
    exact absurd h.1 (by decide)
  · intro h
    exact absurd h.1 (by decide)

/-- C5 as amended: for every original connection (resp. listener) and every list
of directives built with the constructors, `Wrap` returns a wrapper in which all 8
(resp. 3) slots hold a function exactly when every directive that is the last one
on its operation was built from a non-nil function; in particular when every
directive of the list was. -/
theorem slot_invariant_of_fn_set {W : Type} (c : net.ConnMethods W)
    (l : net.ListenerMethods W) (ds : List (wconn.Directive W))
    (lds : List (wlistener.Directive W)) (w : W) :
    (∃ wc, wconn.Wrap (some c) (wconn.overrides ds) w = .ret wc w ∧
      (wconn.AllSlotsBound wc ↔ wconn.LastFnSet ds) ∧
      ((∀ d ∈ ds, d.fnSet = true) → wconn.AllSlotsBound wc)) ∧
    (∃ wl, wlistener.Wrap (some l) (wlistener.overrides lds) w = .ret wl w ∧
      (wlistener.AllSlotsBound wl ↔ wlistener.LastFnSet lds) ∧
      ((∀ d ∈ lds, d.fnSet = true) → wlistener.AllSlotsBound wl)) :=
  ⟨⟨_, wconn.conn_Wrap_overrides c ds w, wconn.conn_allSlotsBound_foldl_iff c ds,
      fun h => (wconn.conn_allSlotsBound_foldl_iff c ds).mpr (wconn.conn_lastFnSet_of_all ds h)⟩,
   ⟨_, wlistener.listener_Wrap_overrides l lds w,
      wlistener.listener_allSlotsBound_foldl_iff l lds,
      fun h => (wlistener.listener_allSlotsBound_foldl_iff l lds).mpr
        (wlistener.listener_lastFnSet_of_all lds h)⟩⟩

/-- C5 as amended, at a concrete input: Read and Close replaced by functions on the
connection, Addr replaced on the listener; every slot of both wrappers is bound. -/
theorem slot_invariant_of_fn_set_witness :
    (∀ d ∈ [wconn.Directive.onRead (some fixture.fixedRead),
        wconn.Directive.onClose (some fixture.fakeConn.Close)], d.fnSet = true) ∧
    (∀ d ∈ [wlistener.Directive.onAddr (some fixture.fixedAddr)], d.fnSet = true) ∧
    (∃ wc, wconn.Wrap (some fixture.pipeConn)
        (wconn.overrides [wconn.Directive.onRead (some fixture.fixedRead),
          wconn.Directive.onClose (some fixture.fakeConn.Close)]) fixture.world0
        = .ret wc fixture.world0 ∧ wconn.AllSlotsBound wc) ∧
    (∃ wl, wlistener.Wrap (some fixture.pipeListener)
        (wlistener.overrides [wlistener.Directive.onAddr (some fixture.fixedAddr)])
        fixture.world0 = .ret wl fixture.world0 ∧ wlistener.AllSlotsBound wl) := by
  have h1 : ∀ d ∈ [wconn.Directive.onRead (some fixture.fixedRead),
      wconn.Directive.onClose (some fixture.fakeConn.Close)], d.fnSet = true := by
    decide
  have h2 : ∀ d ∈ [wlistener.Directive.onAddr (some fixture.fixedAddr)],
      d.fnSet = true := by
    decide
  obtain ⟨⟨wc, hwc, _, hc⟩, ⟨wl, hwl, _, hl⟩⟩ :=
    slot_invariant_of_fn_set fixture.pipeConn fixture.pipeListener
      [wconn.Directive.onRead (some fixture.fixedRead),
       wconn.Directive.onClose (some fixture.fakeConn.Close)]
      [wlistener.Directive.onAddr (some fixture.fixedAddr)] fixture.world0
  exact ⟨h1, h2, ⟨wc, hwc, hc h1⟩, ⟨wl, hwl, hl h2⟩⟩

/-- C8 (directive idempotence): for every directive `d` built with a constructor of
either wrapper and every wrapper under construction, applying `d` twice leaves the
wrapper (and the world) exactly as applying it once does; consequently `Wrap` on a
list holding `d, d` gives the same outcome, with the same bindings, as on the list
holding `d` once at that place. -/
theorem directive_idempotent {W : Type} :
    (∀ (d : wconn.Directive W) (wc : wconn.WrappedConn W) (w : W),
      Go.Eff.bind (Go.call1 d.toOverride wc) (Go.call1 d.toOverride) w
        = Go.call1 d.toOverride wc w) ∧
    (∀ (c : net.Conn W) (pre post : List (wconn.Directive W)) (d : wconn.Directive W)
        (w : W),
      wconn.Wrap c (wconn.overrides (pre ++ d :: d :: post)) w
        = wconn.Wrap c (wconn.overrides (pre ++ d :: post)) w) ∧
    (∀ (d : wlistener.Directive W) (wl : wlistener.WrappedListener W) (w : W),
      Go.Eff.bind (Go.call1 d.toOverride wl) (Go.call1 d.toOverride) w
        = Go.call1 d.toOverride wl w) ∧
    (∀ (l : net.Listener W) (pre post : List (wlistener.Directive W))
        (d : wlistener.Directive W) (w : W),
      wlistener.Wrap l (wlistener.overrides (pre ++ d :: d :: post)) w
        = wlistener.Wrap l (wlistener.overrides (pre ++ d :: post)) w) := by
  refine ⟨?_, ?_, ?_, ?_⟩
  · intro d wc w
    cases d <;> rfl
  · intro c pre post d w
    cases c with
    | none => rfl
    | some c =>
      rw [wconn.conn_Wrap_overrides, wconn.conn_Wrap_overrides]
      simp only [List.foldl_append, List.foldl_cons]
      have hrun : ∀ wc : wconn.WrappedConn W, d.run (d.run wc) = d.run wc := by
        intro wc
        cases d <;> rfl
      rw [hrun]
  · intro d wl w
    cases d <;> rfl
  · intro l pre post d w
    cases l with
    | none => rfl
    | some l =>
      rw [wlistener.listener_Wrap_overrides, wlistener.listener_Wrap_overrides]
      simp only [List.foldl_append, List.foldl_cons]
      have hrun : ∀ wl : wlistener.WrappedListener W, d.run (d.run wl) = d.run wl := by
        intro wl
        cases d <;> rfl
      rw [hrun]

/-! ## Frame of a directive; the wrapper across operation calls -/

/-- C11 (each directive writes exactly one slot): for every directive `d` built
with one of the 8 connection constructors or 3 listener constructors from any
function, and every wrapper state, applying `d` returns, in the same world, a
wrapper in which the slot `d` targets holds the function of `d`, every other slot
holds what it held before, and the stored reference to the original (`inner`) is
unchanged. -/
theorem directive_writes_one_slot {W : Type} :
    (∀ (d : wconn.Directive W) (wc : wconn.WrappedConn W) (w : W),
      ∃ wc1, Go.call1 d.toOverride wc w = .ret wc1 w ∧ d.boundIn wc1 ∧
        (∀ s, s ≠ d.slot → wconn.SlotEq s wc1 wc) ∧ wc1.inner = wc.inner) ∧
    (∀ (d : wlistener.Directive W) (wl : wlistener.WrappedListener W) (w : W),
      ∃ wl1, Go.call1 d.toOverride wl w = .ret wl1 w ∧ d.boundIn wl1 ∧
        (∀ s, s ≠ d.slot → wlistener.SlotEq s wl1 wl) ∧ wl1.inner = wl.inner) := by
  constructor
  · intro d wc w
    refine ⟨d.run wc, ?_, wconn.conn_run_boundIn d wc,
      fun s hs => wconn.conn_run_slotEq d wc s (Ne.symm hs), ?_⟩
    · cases d <;> rfl
    · cases d <;> rfl
  · intro d wl w
    refine ⟨d.run wl, ?_, wlistener.listener_run_boundIn d wl,
      fun s hs => wlistener.listener_run_slotEq d wl s (Ne.symm hs), ?_⟩
    · cases d <;> rfl
    · cases d <;> rfl

namespace wconn

open Go

theorem conn_keptBy_call1 {W α β : Type} (p : Ptr W) (g : Option (α → Eff W β)) (a : α)
    (w : W) (h : ∀ f, g = some f → p.keptBy (f a) w) : p.keptBy (call1 g a) w := by
  cases g with
  | none => exact rfl
  | some f => exact h f rfl

theorem conn_keptBy_call0 {W β : Type} (p : Ptr W) (g : Option (Eff W β))
    (w : W) (h : ∀ f, g = some f → p.keptBy f w) : p.keptBy (call0 g) w := by
  cases g with
  | none => exact rfl
  | some f => exact h f rfl

end wconn

namespace wlistener

open Go

theorem listener_keptBy_call0 {W β : Type} (p : Ptr W) (g : Option (Eff W β))
    (w : W) (h : ∀ f, g = some f → p.keptBy f w) : p.keptBy (call0 g) w := by
  cases g with
  | none => exact rfl
  | some f => exact h f rfl

end wlistener

/-- C12 fails as stated.  A caller keeps the directive `patch := OnRead(patchRead)`
and wraps the connection with a Write replacement that runs
`patch(w.(*WrappedConn))` on the wrapper `w` it is bound in.  `Wrap` returns that
wrapper; one `Write([1])` on it returns `1, nil`, and afterwards the struct behind
the pointer is the one the directive `OnRead(patchRead)` produces from the struct
before the call: its read slot holds another function than before the call. -/
theorem wrapper_immutable_counterexample :
    wconn.Wrap (some fixture.heapConn)
        (wconn.overrides [wconn.Directive.onWrite (some fixture.patchingWrite)])
        fixture.heap0
      = .ret (fixture.heapWrapper fixture.heap0) fixture.heap0 ∧
    (fixture.heapWrapper fixture.heap0).Write [1] fixture.heap0
      = .ret ([1], 1, none) { fixture.heap0 with patched := true } ∧
    Go.call1 (wconn.OnRead (some fixture.patchRead)) (fixture.heapWrapper fixture.heap0)
        fixture.heap0
      = .ret (fixture.heapWrapper { fixture.heap0 with patched := true }) fixture.heap0 ∧
    (fixture.heapWrapper { fixture.heap0 with patched := true }).onRead
      ≠ (fixture.heapWrapper fixture.heap0).onRead ∧
    ¬ wconn.Ptr.keptBy fixture.heapWrapper
        ((fixture.heapWrapper fixture.heap0).Write [1]) fixture.heap0 := by
  have hne : (fixture.heapWrapper { fixture.heap0 with patched := true }).onRead
      ≠ (fixture.heapWrapper fixture.heap0).onRead := by
    intro h
    have h1 : fixture.patchRead = fixture.heapConn.Read := Option.some.inj h
    have h2 := congrFun (congrFun h1 [0]) fixture.heap0
    exact absurd h2 (by decide)
  refine ⟨rfl, rfl, rfl, hne, ?_⟩
  intro hk
  exact hne (congrArg wconn.WrappedConn.onRead hk)

/-- C12 as amended: for every wrapper, connection or listener, and every operation
call on it with any argument, the struct of the wrapper (all slot bindings and the
reference to the original) is the same after the call as before it whenever the
function bound to the invoked slot leaves it so; the methods themselves write
nothing, also when the slot is nil and the call panics. -/
theorem wrapper_kept_by_calls {W : Type} (p : wconn.Ptr W) (q : wlistener.Ptr W) (w : W) :
    (∀ b, (∀ f, (p w).onRead = some f → p.keptBy (f b) w) → p.keptBy ((p w).Read b) w) ∧
    (∀ b, (∀ f, (p w).onWrite = some f → p.keptBy (f b) w) →
      p.keptBy ((p w).Write b) w) ∧
    ((∀ f, (p w).onClose = some f → p.keptBy f w) → p.keptBy (p w).Close w) ∧
    ((∀ f, (p w).onLocalAddr = some f → p.keptBy f w) → p.keptBy (p w).LocalAddr w) ∧
    ((∀ f, (p w).onRemoteAddr = some f → p.keptBy f w) → p.keptBy (p w).RemoteAddr w) ∧
    (∀ t, (∀ f, (p w).onSetDeadline = some f → p.keptBy (f t) w) →
      p.keptBy ((p w).SetDeadline t) w) ∧
    (∀ t, (∀ f, (p w).onSetReadDeadline = some f → p.keptBy (f t) w) →
      p.keptBy ((p w).SetReadDeadline t) w) ∧
    (∀ t, (∀ f, (p w).onSetWriteDeadline = some f → p.keptBy (f t) w) →
      p.keptBy ((p w).SetWriteDeadline t) w) ∧
    ((∀ f, (q w).onAccept = some f → q.keptBy f w) → q.keptBy (q w).Accept w) ∧
    ((∀ f, (q w).onClose = some f → q.keptBy f w) → q.keptBy (q w).Close w) ∧
    ((∀ f, (q w).onAddr = some f → q.keptBy f w) → q.keptBy (q w).Addr w) :=
  ⟨fun b h => wconn.conn_keptBy_call1 p _ b w h,
   fun b h => wconn.conn_keptBy_call1 p _ b w h,
   fun h => wconn.conn_keptBy_call0 p _ w h,
   fun h => wconn.conn_keptBy_call0 p _ w h,
   fun h => wconn.conn_keptBy_call0 p _ w h,
   fun t h => wconn.conn_keptBy_call1 p _ t w h,
   fun t h => wconn.conn_keptBy_call1 p _ t w h,
   fun t h => wconn.conn_keptBy_call1 p _ t w h,
   fun h => wlistener.listener_keptBy_call0 q _ w h,
   fun h => wlistener.listener_keptBy_call0 q _ w h,
   fun h => wlistener.listener_keptBy_call0 q _ w h⟩

/-- C12 as amended, at a concrete input: in the scenario above the function bound
to the close slot (the original's Close) leaves the wrapper alone, and so does a
Close call on the wrapper. -/
theorem wrapper_kept_by_calls_witness :
    (∀ f, (fixture.heapWrapper fixture.heap0).onClose = some f →
      wconn.Ptr.keptBy fixture.heapWrapper f fixture.heap0) ∧
    wconn.Ptr.keptBy fixture.heapWrapper (fixture.heapWrapper fixture.heap0).Close
      fixture.heap0 ∧
    (fixture.heapWrapper fixture.heap0).Close fixture.heap0 = .ret none fixture.heap0 := by
  have hf : ∀ f, (fixture.heapWrapper fixture.heap0).onClose = some f →
      wconn.Ptr.keptBy fixture.heapWrapper f fixture.heap0 := by
    intro f hf
    have hf1 : fixture.heapConn.Close = f := Option.some.inj hf
    subst hf1
    exact rfl
  exact ⟨hf,
    (wrapper_kept_by_calls fixture.heapWrapper
      (fun _ => wlistener.initial fixture.heapListener) fixture.heap0).2.2.1 hf, rfl⟩

/-! ## Commutation of directives on different slots -/

namespace wconn

open Go

theorem conn_slotEq_symm {W : Type} {s : Slot} {a b : WrappedConn W}
    (h : SlotEq s a b) : SlotEq s b a := by
  cases s <;> exact Eq.symm h

theorem conn_slotEq_congr_run {W : Type} (d : Directive W) (s : Slot) (a b : WrappedConn W)
    (h : SlotEq s a b) : SlotEq s (d.run a) (d.run b) := by
  cases d <;> cases s <;> first | exact h | exact rfl

theorem conn_slotEq_congr_foldl {W : Type} (ds : List (Directive W)) (s : Slot)
    (a b : WrappedConn W) (h : SlotEq s a b) :
    SlotEq s (ds.foldl (fun acc d => d.run acc) a) (ds.foldl (fun acc d => d.run acc) b) := by
  induction ds generalizing a b with
  | nil => exact h
  | cons d ds ih => exact ih _ _ (conn_slotEq_congr_run d s a b h)

theorem conn_foldl_filter {W : Type} (ds : List (Directive W)) (s : Slot) (wc : WrappedConn W) :
    SlotEq s (ds.foldl (fun acc d => d.run acc) wc)
      ((ds.filter (fun d => decide (d.slot = s))).foldl (fun acc d => d.run acc) wc) := by
  induction ds generalizing wc with
  | nil => exact conn_slotEq_refl s wc
  | cons d ds ih =>
    by_cases hd : d.slot = s
    · rw [List.filter_cons_of_pos (by simpa using hd)]
      exact ih (d.run wc)
    · rw [List.filter_cons_of_neg (by simpa using hd)]
      exact conn_slotEq_trans (ih (d.run wc))
        (conn_slotEq_congr_foldl _ s _ _ (conn_run_slotEq d wc s hd))

theorem conn_inner_foldl {W : Type} (ds : List (Directive W)) (wc : WrappedConn W) :
    (ds.foldl (fun acc d => d.run acc) wc).inner = wc.inner := by
  induction ds generalizing wc with
  | nil => rfl
  | cons d ds ih =>
    rw [List.foldl_cons, ih]
    cases d <;> rfl

theorem conn_eq_of_slotEq {W : Type} (a b : WrappedConn W) (hi : a.inner = b.inner)
    (h : ∀ s, SlotEq s a b) : a = b := by
  cases a
  cases b
  have h1 := h .read
  have h2 := h .write
  have h3 := h .close
  have h4 := h .localAddr
  have h5 := h .remoteAddr
  have h6 := h .setDeadline
  have h7 := h .setReadDeadline
  have h8 := h .setWriteDeadline
  simp only [SlotEq] at h1 h2 h3 h4 h5 h6 h7 h8
  simp only at hi
  subst hi h1 h2 h3 h4 h5 h6 h7 h8
  rfl

theorem conn_foldl_eq_of_sameOrder {W : Type} (ds1 ds2 : List (Directive W))
    (wc : WrappedConn W) (h : SameOrderPerSlot ds1 ds2) :
    ds1.foldl (fun acc d => d.run acc) wc = ds2.foldl (fun acc d => d.run acc) wc := by
  apply conn_eq_of_slotEq
  · rw [conn_inner_foldl, conn_inner_foldl]
  · intro s
    have e1 := conn_foldl_filter ds1 s wc
    have e2 := conn_foldl_filter ds2 s wc
    rw [h s] at e1
    exact conn_slotEq_trans e1 (conn_slotEq_symm e2)

theorem conn_sameOrder_swap {W : Type} (pre post : List (Directive W)) (d1 d2 : Directive W)
    (h : d1.slot ≠ d2.slot) :
    SameOrderPerSlot (pre ++ d1 :: d2 :: post) (pre ++ d2 :: d1 :: post) := by
  intro s
  simp only [List.filter_append, List.filter_cons]
  by_cases h1 : d1.slot = s <;> by_cases h2 : d2.slot = s
  · exact absurd (h1.trans h2.symm) h
  · simp [h1, h2]
  · simp [h1, h2]
  · simp [h1, h2]

end wconn

namespace wlistener

open Go

theorem listener_slotEq_symm {W : Type} {s : Slot} {a b : WrappedListener W}
    (h : SlotEq s a b) : SlotEq s b a := by
  cases s <;> exact Eq.symm h

theorem listener_slotEq_congr_run {W : Type} (d : Directive W) (s : Slot)
    (a b : WrappedListener W) (h : SlotEq s a b) : SlotEq s (d.run a) (d.run b) := by
  cases d <;> cases s <;> first | exact h | exact rfl

theorem listener_slotEq_congr_foldl {W : Type} (ds : List (Directive W)) (s : Slot)
    (a b : WrappedListener W) (h : SlotEq s a b) :
    SlotEq s (ds.foldl (fun acc d => d.run acc) a) (ds.foldl (fun acc d => d.run acc) b) := by
  induction ds generalizing a b with
  | nil => exact h
  | cons d ds ih => exact ih _ _ (listener_slotEq_congr_run d s a b h)

theorem listener_foldl_filter {W : Type} (ds : List (Directive W)) (s : Slot)
    (wl : WrappedListener W) :
    SlotEq s (ds.foldl (fun acc d => d.run acc) wl)
      ((ds.filter (fun d => decide (d.slot = s))).foldl (fun acc d => d.run acc) wl) := by
  induction ds generalizing wl with
  | nil => exact listener_slotEq_refl s wl
  | cons d ds ih =>
    by_cases hd : d.slot = s
    · rw [List.filter_cons_of_pos (by simpa using hd)]
      exact ih (d.run wl)
    · rw [List.filter_cons_of_neg (by simpa using hd)]
      exact listener_slotEq_trans (ih (d.run wl))
        (listener_slotEq_congr_foldl _ s _ _ (listener_run_slotEq d wl s hd))

theorem listener_inner_foldl {W : Type} (ds : List (Directive W)) (wl : WrappedListener W) :
    (ds.foldl (fun acc d => d.run acc) wl).inner = wl.inner := by
  induction ds generalizing wl with
  | nil => rfl
  | cons d ds ih =>
    rw [List.foldl_cons, ih]
    cases d <;> rfl

theorem listener_eq_of_slotEq {W : Type} (a b : WrappedListener W) (hi : a.inner = b.inner)
    (h : ∀ s, SlotEq s a b) : a = b := by
  cases a
  cases b
  have h1 := h .accept
  have h2 := h .close
  have h3 := h .addr
  simp only [SlotEq] at h1 h2 h3
  simp only at hi
  subst hi h1 h2 h3
  rfl

theorem listener_foldl_eq_of_sameOrder {W : Type} (ds1 ds2 : List (Directive W))
    (wl : WrappedListener W) (h : SameOrderPerSlot ds1 ds2) :
    ds1.foldl (fun acc d => d.run acc) wl = ds2.foldl (fun acc d => d.run acc) wl := by
  apply listener_eq_of_slotEq
  · rw [listener_inner_foldl, listener_inner_foldl]
  · intro s
    have e1 := listener_foldl_filter ds1 s wl
    have e2 := listener_foldl_filter ds2 s wl
    rw [h s] at e1
    exact listener_slotEq_trans e1 (listener_slotEq_symm e2)

theorem listener_sameOrder_swap {W : Type} (pre post : List (Directive W))
    (d1 d2 : Directive W) (h : d1.slot ≠ d2.slot) :
    SameOrderPerSlot (pre ++ d1 :: d2 :: post) (pre ++ d2 :: d1 :: post) := by
  intro s
  simp only [List.filter_append, List.filter_cons]
  by_cases h1 : d1.slot = s <;> by_cases h2 : d2.slot = s
  · exact absurd (h1.trans h2.symm) h
  · simp [h1, h2]
  · simp [h1, h2]
  · simp [h1, h2]

end wlistener

/-- C14 (directives on different slots commute): for every original connection
(resp. listener) and every two directive lists holding, for each operation, the
same directives on it in the same order (each a permutation of the other that
keeps the relative order of the directives on the same slot), `Wrap` returns the
same wrapper for both: identical bindings in all 8 (resp. 3) slots and the same
`inner`.  In particular swapping two adjacent directives that target different
operations does not change what `Wrap` returns. -/
theorem wrap_commutes_across_slots {W : Type} (c : net.ConnMethods W)
    (l : net.ListenerMethods W) (ds1 ds2 : List (wconn.Directive W))
    (ls1 ls2 : List (wlistener.Directive W)) (w : W)
    (h : wconn.SameOrderPerSlot ds1 ds2) (hl : wlistener.SameOrderPerSlot ls1 ls2) :
    (∃ wc, wconn.Wrap (some c) (wconn.overrides ds1) w = .ret wc w ∧
      wconn.Wrap (some c) (wconn.overrides ds2) w = .ret wc w) ∧
    (∃ wl, wlistener.Wrap (some l) (wlistener.overrides ls1) w = .ret wl w ∧
      wlistener.Wrap (some l) (wlistener.overrides ls2) w = .ret wl w) ∧
    (∀ pre post d1 d2, wconn.Directive.slot d1 ≠ wconn.Directive.slot d2 →
      wconn.Wrap (some c) (wconn.overrides (pre ++ d1 :: d2 :: post)) w
        = wconn.Wrap (some c) (wconn.overrides (pre ++ d2 :: d1 :: post)) w) ∧
    (∀ pre post d1 d2, wlistener.Directive.slot d1 ≠ wlistener.Directive.slot d2 →
      wlistener.Wrap (some l) (wlistener.overrides (pre ++ d1 :: d2 :: post)) w
        = wlistener.Wrap (some l) (wlistener.overrides (pre ++ d2 :: d1 :: post)) w) := by
  refine ⟨⟨_, wconn.conn_Wrap_overrides c ds1 w, ?_⟩,
    ⟨_, wlistener.listener_Wrap_overrides l ls1 w, ?_⟩, ?_, ?_⟩
  · rw [wconn.conn_Wrap_overrides, wconn.conn_foldl_eq_of_sameOrder ds1 ds2 _ h]
  · rw [wlistener.listener_Wrap_overrides,
      wlistener.listener_foldl_eq_of_sameOrder ls1 ls2 _ hl]
  · intro pre post d1 d2 hne
    rw [wconn.conn_Wrap_overrides, wconn.conn_Wrap_overrides,
      wconn.conn_foldl_eq_of_sameOrder _ _ _ (wconn.conn_sameOrder_swap pre post d1 d2 hne)]
  · intro pre post d1 d2 hne
    rw [wlistener.listener_Wrap_overrides, wlistener.listener_Wrap_overrides,
      wlistener.listener_foldl_eq_of_sameOrder _ _ _
        (wlistener.listener_sameOrder_swap pre post d1 d2 hne)]

/-- C14 at a concrete input: a Write directive moved in front of two Read
directives whose order is kept, and Accept and Addr directives swapped; both
orders give the same wrapper, with the later Read function in the read slot. -/
theorem wrap_commutes_across_slots_witness :
    wconn.SameOrderPerSlot
      [wconn.Directive.onRead (some fixture.fixedRead),
       wconn.Directive.onWrite (some fixture.countingWrite),
       wconn.Directive.onRead (some fixture.fakeConn.Read)]
      [wconn.Directive.onWrite (some fixture.countingWrite),
       wconn.Directive.onRead (some fixture.fixedRead),
       wconn.Directive.onRead (some fixture.fakeConn.Read)] ∧
    wlistener.SameOrderPerSlot
      [wlistener.Directive.onAddr (some fixture.fixedAddr),
       wlistener.Directive.onAccept (some fixture.scriptedAccept)]
      [wlistener.Directive.onAccept (some fixture.scriptedAccept),
       wlistener.Directive.onAddr (some fixture.fixedAddr)] ∧
    (∃ wc, wconn.Wrap (some fixture.pipeConn)
        (wconn.overrides [wconn.Directive.onRead (some fixture.fixedRead),
          wconn.Directive.onWrite (some fixture.countingWrite),
          wconn.Directive.onRead (some fixture.fakeConn.Read)]) fixture.world0
        = .ret wc fixture.world0 ∧
      wconn.Wrap (some fixture.pipeConn)
        (wconn.overrides [wconn.Directive.onWrite (some fixture.countingWrite),
          wconn.Directive.onRead (some fixture.fixedRead),
          wconn.Directive.onRead (some fixture.fakeConn.Read)]) fixture.world0
        = .ret wc fixture.world0) ∧
    (∃ wl, wlistener.Wrap (some fixture.pipeListener)
        (wlistener.overrides [wlistener.Directive.onAddr (some fixture.fixedAddr),
          wlistener.Directive.onAccept (some fixture.scriptedAccept)]) fixture.world0
        = .ret wl fixture.world0 ∧
      wlistener.Wrap (some fixture.pipeListener)
        (wlistener.overrides [wlistener.Directive.onAccept (some fixture.scriptedAccept),
          wlistener.Directive.onAddr (some fixture.fixedAddr)]) fixture.world0
        = .ret wl fixture.world0) := by
  have h1 : wconn.SameOrderPerSlot
      [wconn.Directive.onRead (some fixture.fixedRead),
       wconn.Directive.onWrite (some fixture.countingWrite),
       wconn.Directive.onRead (some fixture.fakeConn.Read)]
      [wconn.Directive.onWrite (some fixture.countingWrite),
       wconn.Directive.onRead (some fixture.fixedRead),
       wconn.Directive.onRead (some fixture.fakeConn.Read)] := by
    intro s
    cases s <;> rfl
  have h2 : wlistener.SameOrderPerSlot
      [wlistener.Directive.onAddr (some fixture.fixedAddr),
       wlistener.Directive.onAccept (some fixture.scriptedAccept)]
      [wlistener.Directive.onAccept (some fixture.scriptedAccept),
       wlistener.Directive.onAddr (some fixture.fixedAddr)] := by
    intro s
    cases s <;> rfl
  obtain ⟨hc, hl, _, _⟩ := wrap_commutes_across_slots fixture.pipeConn fixture.pipeListener
    _ _ _ _ fixture.world0 h1 h2
  exact ⟨h1, h2, hc, hl⟩

/-! ## Construction leaves the original alone -/

/-- C15 (construction does not touch the original): for every original connection
(resp. listener) and every list of directives built with the On* constructors,
`Wrap` returns in the very world it was called in, whatever the operations of the
original and the supplied functions would do to that world if invoked; the wrapper
it returns keeps the original as `inner`, and each of its slots holds either the
original's method (no directive on that operation) or the function of a directive
of the list. -/
theorem wrap_touches_nothing {W : Type} (c : net.ConnMethods W) (l : net.ListenerMethods W)
    (ds : List (wconn.Directive W)) (lds : List (wlistener.Directive W)) (w : W) :
    (∃ wc, wconn.Wrap (some c) (wconn.overrides ds) w = .ret wc w ∧
      (wconn.Wrap (some c) (wconn.overrides ds) w).world = w ∧
      wc.inner = some c ∧
      ∀ s, (¬ wconn.targets ds s ∧ wconn.SlotEq s wc (wconn.initial c)) ∨
        (∃ d ∈ ds, d.slot = s ∧ d.boundIn wc)) ∧
    (∃ wl, wlistener.Wrap (some l) (wlistener.overrides lds) w = .ret wl w ∧
      (wlistener.Wrap (some l) (wlistener.overrides lds) w).world = w ∧
      wl.inner = some l ∧
      ∀ s, (¬ wlistener.targets lds s ∧ wlistener.SlotEq s wl (wlistener.initial l)) ∨
        (∃ d ∈ lds, d.slot = s ∧ d.boundIn wl)) := by
  constructor
  · refine ⟨_, wconn.conn_Wrap_overrides c ds w, ?_, wconn.conn_inner_foldl ds _, ?_⟩
    · rw [wconn.conn_Wrap_overrides]
      rfl
    · intro s
      by_cases hs : wconn.targets ds s
      · obtain ⟨pre, d, post, hds, hd, hp⟩ := wconn.conn_exists_last ds s hs
        refine Or.inr ⟨d, by simp [hds], hd, ?_⟩
        rw [hds]
        exact wconn.conn_foldl_boundIn pre post d _ (hd ▸ hp)
      · exact Or.inl ⟨hs, wconn.conn_foldl_slotEq ds _ s hs⟩
  · refine ⟨_, wlistener.listener_Wrap_overrides l lds w, ?_,
      wlistener.listener_inner_foldl lds _, ?_⟩
    · rw [wlistener.listener_Wrap_overrides]
      rfl
    · intro s
      by_cases hs : wlistener.targets lds s
      · obtain ⟨pre, d, post, hds, hd, hp⟩ := wlistener.listener_exists_last lds s hs
        refine Or.inr ⟨d, by simp [hds], hd, ?_⟩
        rw [hds]
        exact wlistener.listener_foldl_boundIn pre post d _ (hd ▸ hp)
      · exact Or.inl ⟨hs, wlistener.listener_foldl_slotEq lds _ s hs⟩

/-- C15 at a concrete input: an original and replacement functions each of which
would count itself in the world if it ran; after `Wrap` the counter is still 0,
while one Close on the returned wrapper moves it to 1. -/
theorem wrap_touches_nothing_witness :
    (∃ wc, wconn.Wrap (some fixture.tripConn)
        (wconn.overrides [wconn.Directive.onRead (some fixture.tripConn.Write),
          wconn.Directive.onSetDeadline (some fixture.tripConn.SetReadDeadline)])
        fixture.world0 = .ret wc fixture.world0 ∧
      fixture.world0.counted = 0 ∧
      wc.Close fixture.world0 = .ret none { fixture.world0 with counted := 1 }) ∧
    (∃ wl, wlistener.Wrap (some fixture.tripListener)
        (wlistener.overrides [wlistener.Directive.onAddr (some fixture.tripListener.Addr)])
        fixture.world0 = .ret wl fixture.world0 ∧
      wl.Close fixture.world0 = .ret none { fixture.world0 with counted := 1 }) := by
  obtain ⟨⟨wc, hwc, _, _, hslots⟩, ⟨wl, hwl, _, _, hlslots⟩⟩ :=
    wrap_touches_nothing fixture.tripConn fixture.tripListener
      [wconn.Directive.onRead (some fixture.tripConn.Write),
       wconn.Directive.onSetDeadline (some fixture.tripConn.SetReadDeadline)]
      [wlistener.Directive.onAddr (some fixture.tripListener.Addr)] fixture.world0
  refine ⟨⟨wc, hwc, rfl, ?_⟩, ⟨wl, hwl, ?_⟩⟩
  · rcases hslots wconn.Slot.close with ⟨_, hc⟩ | ⟨d, hd, hslot, _⟩
    · have hc1 : wc.onClose = some fixture.tripConn.Close := hc
      simp only [wconn.WrappedConn.Close, hc1]
      rfl
    · simp only [List.mem_cons, List.mem_singleton, List.not_mem_nil, or_false] at hd
      rcases hd with hd | hd <;> subst hd <;> exact absurd hslot (by decide)
  · rcases hlslots wlistener.Slot.close with ⟨_, hc⟩ | ⟨d, hd, hslot, _⟩
    · have hc1 : wl.onClose = some fixture.tripListener.Close := hc
      simp only [wlistener.WrappedListener.Close, hc1]
      rfl
    · simp only [List.mem_singleton] at hd
      subst hd
      exact absurd hslot (by decide)

/-! ## Behaviour of a wrapper in use: calls find the struct behind the pointer -/

namespace wconn

open Go

theorem conn_sameAsOriginalAt_of_slotEq {W : Type} (s : Slot) (wc : WrappedConn W)
    (c : net.ConnMethods W) (w : W) (h : SlotEq s wc (initial c)) :
    SameAsOriginalAt s wc c w := by
  cases s <;> simp only [SlotEq, initial] at h <;>
    simp [SameAsOriginalAt, WrappedConn.Read, WrappedConn.Write, WrappedConn.Close,
      WrappedConn.LocalAddr, WrappedConn.RemoteAddr, WrappedConn.SetDeadline,
      WrappedConn.SetReadDeadline, WrappedConn.SetWriteDeadline, h, call0, call1]

end wconn

/-- C1 fails as stated.  `Wrap(heapConn, OnWrite(patchingWrite))` is built from a
list that does not target Read, and right after `Wrap` a Read on the wrapper is the
original's Read.  The Write replacement applies the kept directive
`OnRead(patchRead)` to the wrapper it is bound in, so after one `Write([1])` a
`Read` on the wrapper returns `[7], 1, nil` where the same Read invoked directly on
the original returns `0, EOF`.  (The last conjunct: the struct found after the
Write is what the closure of `OnRead(patchRead)` makes of the struct before it.) -/
theorem wconn_default_transparency_counterexample :
    ¬ wconn.targets [wconn.Directive.onWrite (some fixture.patchingWrite)]
        wconn.Slot.read ∧
    wconn.Wrap (some fixture.heapConn)
        (wconn.overrides [wconn.Directive.onWrite (some fixture.patchingWrite)])
        fixture.heap0
      = .ret (fixture.heapWrapper fixture.heap0) fixture.heap0 ∧
    (fixture.heapWrapper fixture.heap0).Read [0] fixture.heap0
      = fixture.heapConn.Read [0] fixture.heap0 ∧
    (fixture.heapWrapper fixture.heap0).Write [1] fixture.heap0
      = .ret ([1], 1, none) { fixture.heap0 with patched := true } ∧
    (fixture.heapWrapper { fixture.heap0 with patched := true }).Read [0]
        { fixture.heap0 with patched := true }
      = .ret ([7], 1, none) { fixture.heap0 with patched := true } ∧
    fixture.heapConn.Read [0] { fixture.heap0 with patched := true }
      = .ret ([0], 0, some "EOF") { fixture.heap0 with patched := true } ∧
    (fixture.heapWrapper { fixture.heap0 with patched := true }).Read [0]
        { fixture.heap0 with patched := true }
      ≠ fixture.heapConn.Read [0] { fixture.heap0 with patched := true } ∧
    Go.call1 (wconn.OnRead (some fixture.patchRead)) (fixture.heapWrapper fixture.heap0)
        fixture.heap0
      = .ret (fixture.heapWrapper { fixture.heap0 with patched := true }) fixture.heap0 :=
  ⟨by decide, rfl, rfl, rfl, rfl, rfl, by decide, rfl⟩

/-- C1 as amended (default transparency and slot independence): for every original
connection `c` and every list `ds` of directives built with the On* constructors,
`Wrap` returns a wrapper such that every operation no directive of `ds` targets,
invoked with any argument at any time at which the wrapper's slot for that
operation still holds what `Wrap` bound there (whatever happened to the other
slots), returns exactly what the same operation returns when invoked directly on
`c` at that time.  In particular this covers all eight operations when `ds` is
empty, and close, the two addresses and the three deadline setters when `ds`
overrides only Read and Write. -/
theorem wconn_default_transparency_while_bound {W : Type} (c : net.ConnMethods W)
    (ds : List (wconn.Directive W)) (w0 : W) :
    ∃ wc, wconn.Wrap (some c) (wconn.overrides ds) w0 = .ret wc w0 ∧
      ∀ (p : wconn.Ptr W) (w : W),
        (∀ s, ¬ wconn.targets ds s → wconn.SlotEq s (p w) wc →
          wconn.SameAsOriginalAt s (p w) c w) ∧
        (ds = [] → ∀ s, wconn.SlotEq s (p w) wc → wconn.SameAsOriginalAt s (p w) c w) ∧
        ((∀ d ∈ ds, d.slot = .read ∨ d.slot = .write) →
          ∀ s, s ≠ .read → s ≠ .write → wconn.SlotEq s (p w) wc →
            wconn.SameAsOriginalAt s (p w) c w) := by
  refine ⟨_, wconn.conn_Wrap_overrides c ds w0, ?_⟩
  intro p w
  have key : ∀ s, ¬ wconn.targets ds s →
      wconn.SlotEq s (p w) (ds.foldl (fun acc d => d.run acc) (wconn.initial c)) →
      wconn.SameAsOriginalAt s (p w) c w :=
    fun s hs hp => wconn.conn_sameAsOriginalAt_of_slotEq s _ c w
      (wconn.conn_slotEq_trans hp (wconn.conn_foldl_slotEq ds _ s hs))
  refine ⟨key, ?_, ?_⟩
  · intro he s
    apply key
    simp [wconn.targets, he]
  · intro hrw s hr hwr
    apply key
    intro hmem
    obtain ⟨d, hd, hds⟩ := List.mem_map.mp hmem
    rcases hrw d hd with h | h
    · exact hr (hds ▸ h)
    · exact hwr (hds ▸ h)

/-- C1 as amended, at a concrete input: in the scenario above the close slot is not
targeted and nothing rebinds it; after the Write that rebound the read slot, Close
on the wrapper is still Close on the original. -/
theorem wconn_default_transparency_while_bound_witness :
    ¬ wconn.targets [wconn.Directive.onWrite (some fixture.patchingWrite)]
        wconn.Slot.close ∧
    ∃ wc, wconn.Wrap (some fixture.heapConn)
        (wconn.overrides [wconn.Directive.onWrite (some fixture.patchingWrite)])
        fixture.heap0 = .ret wc fixture.heap0 ∧
      wconn.SlotEq wconn.Slot.close
        (fixture.heapWrapper { fixture.heap0 with patched := true }) wc ∧
      (fixture.heapWrapper { fixture.heap0 with patched := true }).Close
          { fixture.heap0 with patched := true }
        = fixture.heapConn.Close { fixture.heap0 with patched := true } := by
  have hnot : ¬ wconn.targets [wconn.Directive.onWrite (some fixture.patchingWrite)]
      wconn.Slot.close := by decide
  obtain ⟨wc, hwc, h⟩ := wconn_default_transparency_while_bound fixture.heapConn
    [wconn.Directive.onWrite (some fixture.patchingWrite)] fixture.heap0
  have hval : wc = fixture.heapWrapper fixture.heap0 :=
    (Go.Outcome.ret.inj (hwc.symm.trans
      (rfl : wconn.Wrap (some fixture.heapConn)
        (wconn.overrides [wconn.Directive.onWrite (some fixture.patchingWrite)])
        fixture.heap0 = .ret (fixture.heapWrapper fixture.heap0) fixture.heap0))).1
  have hslot : wconn.SlotEq wconn.Slot.close
      (fixture.heapWrapper { fixture.heap0 with patched := true }) wc := by
    rw [hval]
    exact rfl
  exact ⟨hnot, wc, hwc, hslot,
    (h fixture.heapWrapper { fixture.heap0 with patched := true }).1 wconn.Slot.close
      hnot hslot⟩

namespace wlistener

open Go

theorem listener_sameAsOriginalAt_of_slotEq {W : Type} (s : Slot) (wl : WrappedListener W)
    (l : net.ListenerMethods W) (w : W) (h : SlotEq s wl (initial l)) :
    SameAsOriginalAt s wl l w := by
  cases s <;> simp only [SlotEq, initial] at h <;>
    simp [SameAsOriginalAt, WrappedListener.Accept, WrappedListener.Close,
      WrappedListener.Addr, h, call0]

theorem listener_governsAt_of_boundIn {W : Type} (d : Directive W) (wl : WrappedListener W)
    (w : W) (h : d.boundIn wl) : d.governsAt wl w := by
  cases d <;> simp only [Directive.boundIn] at h <;>
    simp [Directive.governsAt, WrappedListener.Accept, WrappedListener.Close,
      WrappedListener.Addr, h]

end wlistener

/-- C4 fails as stated.  `Wrap(lheapListener, OnClose(patchingClose))` is built from
a list that does not target Accept.  The Close replacement applies the kept
directive `OnAccept(laterAccept)` to the wrapper it is bound in, so after one
`Close` an `Accept` on the wrapper runs `laterAccept`, not the original's Accept.
(The last conjunct: the struct found after the Close is what the closure of
`OnAccept(laterAccept)` makes of the struct before it.) -/
theorem wlistener_last_write_wins_counterexample :
    ¬ wlistener.targets [wlistener.Directive.onClose (some fixture.patchingClose)]
        wlistener.Slot.accept ∧
    wlistener.Wrap (some fixture.lheapListener)
        (wlistener.overrides [wlistener.Directive.onClose (some fixture.patchingClose)])
        fixture.lheap0
      = .ret (fixture.closeWrapper fixture.lheap0) fixture.lheap0 ∧
    (fixture.closeWrapper fixture.lheap0).Close fixture.lheap0
      = .ret none { fixture.lheap0 with rebound := true } ∧
    (fixture.closeWrapper { fixture.lheap0 with rebound := true }).Accept
        { fixture.lheap0 with rebound := true }
      = .ret (none, some "from the kept directive") { fixture.lheap0 with rebound := true } ∧
    fixture.lheapListener.Accept { fixture.lheap0 with rebound := true }
      = .ret (none, some "from the original") { fixture.lheap0 with rebound := true } ∧
    (fixture.closeWrapper { fixture.lheap0 with rebound := true }).Accept
        { fixture.lheap0 with rebound := true }
      ≠ fixture.lheapListener.Accept { fixture.lheap0 with rebound := true } ∧
    Go.call1 (wlistener.OnAccept (some fixture.laterAccept))
        (fixture.closeWrapper fixture.lheap0) fixture.lheap0
      = .ret (fixture.closeWrapper { fixture.lheap0 with rebound := true })
          fixture.lheap0 := by
  refine ⟨by decide, rfl, rfl, rfl, rfl, ?_, rfl⟩
  intro h
  have h1 : (some "from the kept directive" : Go.Error) = some "from the original" :=
    congrArg Prod.snd (Go.Outcome.ret.inj h).1
  exact absurd h1 (by decide)

/-- C4 as amended (listener: default-bind, then apply in order, last write wins):
for every original listener `l` and every list `ds` of directives built with
OnAccept, OnClose and OnAddr, `Wrap` returns a wrapper in which a slot no directive
targets holds the method of `l` and a slot whose last targeting directive is `d`
holds the function of `d`; and each operation, invoked at any time at which its
slot still holds what `Wrap` bound there, returns exactly what the same operation
of `l` returns (no directive on it), resp. behaves as a call of the function of the
last directive on it. -/
theorem wlistener_last_write_wins_while_bound {W : Type} (l : net.ListenerMethods W)
    (ds : List (wlistener.Directive W)) (w0 : W) :
    ∃ wl, wlistener.Wrap (some l) (wlistener.overrides ds) w0 = .ret wl w0 ∧
      (∀ s, ¬ wlistener.targets ds s → wlistener.SlotEq s wl (wlistener.initial l)) ∧
      (∀ pre d post, ds = pre ++ d :: post → ¬ wlistener.targets post d.slot →
        d.boundIn wl) ∧
      ∀ (p : wlistener.Ptr W) (w : W),
        (∀ s, ¬ wlistener.targets ds s → wlistener.SlotEq s (p w) wl →
          wlistener.SameAsOriginalAt s (p w) l w) ∧
        (∀ pre d post, ds = pre ++ d :: post → ¬ wlistener.targets post d.slot →
          wlistener.SlotEq d.slot (p w) wl → d.governsAt (p w) w) := by
  have hdef : ∀ s, ¬ wlistener.targets ds s →
      wlistener.SlotEq s (ds.foldl (fun acc d => d.run acc) (wlistener.initial l))
        (wlistener.initial l) :=
    fun s hs => wlistener.listener_foldl_slotEq ds _ s hs
  have hlast : ∀ pre d post, ds = pre ++ d :: post → ¬ wlistener.targets post d.slot →
      wlistener.Directive.boundIn d
        (ds.foldl (fun acc d => d.run acc) (wlistener.initial l)) := by
    intro pre d post hds hpost
    subst hds
    exact wlistener.listener_foldl_boundIn pre post d (wlistener.initial l) hpost
  refine ⟨_, wlistener.listener_Wrap_overrides l ds w0, hdef, hlast, ?_⟩
  intro p w
  constructor
  · intro s hs hp
    exact wlistener.listener_sameAsOriginalAt_of_slotEq s _ l w
      (wlistener.listener_slotEq_trans hp (hdef s hs))
  · intro pre d post hds hpost hp
    exact wlistener.listener_governsAt_of_boundIn d _ w
      (wlistener.listener_boundIn_of_slotEq d _ _ hp (hlast pre d post hds hpost))

/-- C4 as amended, at a concrete input: in the scenario above, after the Close that
rebound the accept slot, the addr slot (no directive) and the close slot (last
directive `OnClose(patchingClose)`) still hold what `Wrap` bound: Addr answers as
the original, Close runs `patchingClose`. -/
theorem wlistener_last_write_wins_while_bound_witness :
    ¬ wlistener.targets [wlistener.Directive.onClose (some fixture.patchingClose)]
        wlistener.Slot.addr ∧
    ¬ wlistener.targets ([] : List (wlistener.Directive fixture.LHeap))
        wlistener.Slot.close ∧
    ∃ wl, wlistener.Wrap (some fixture.lheapListener)
        (wlistener.overrides [wlistener.Directive.onClose (some fixture.patchingClose)])
        fixture.lheap0 = .ret wl fixture.lheap0 ∧
      (fixture.closeWrapper { fixture.lheap0 with rebound := true }).Addr
          { fixture.lheap0 with rebound := true }
        = fixture.lheapListener.Addr { fixture.lheap0 with rebound := true } ∧
      (fixture.closeWrapper { fixture.lheap0 with rebound := true }).Close
          { fixture.lheap0 with rebound := true }
        = fixture.patchingClose { fixture.lheap0 with rebound := true } := by
  have h1 : ¬ wlistener.targets
      [wlistener.Directive.onClose (some fixture.patchingClose)] wlistener.Slot.addr := by
    decide
  have h2 : ¬ wlistener.targets ([] : List (wlistener.Directive fixture.LHeap))
      wlistener.Slot.close := by decide
  obtain ⟨wl, hwl, _, _, h⟩ := wlistener_last_write_wins_while_bound fixture.lheapListener
    [wlistener.Directive.onClose (some fixture.patchingClose)] fixture.lheap0
  have hval : wl = fixture.closeWrapper fixture.lheap0 :=
    (Go.Outcome.ret.inj (hwl.symm.trans
      (rfl : wlistener.Wrap (some fixture.lheapListener)
        (wlistener.overrides [wlistener.Directive.onClose (some fixture.patchingClose)])
        fixture.lheap0 = .ret (fixture.closeWrapper fixture.lheap0) fixture.lheap0))).1
  have hp := h fixture.closeWrapper { fixture.lheap0 with rebound := true }
  have ha : wlistener.SlotEq wlistener.Slot.addr
      (fixture.closeWrapper { fixture.lheap0 with rebound := true }) wl := by
    rw [hval]
    exact rfl
  have hc : wlistener.SlotEq wlistener.Slot.close
      (fixture.closeWrapper { fixture.lheap0 with rebound := true }) wl := by
    rw [hval]
    exact rfl
  exact ⟨h1, h2, wl, hwl, hp.1 wlistener.Slot.addr h1 ha,
    hp.2 [] (wlistener.Directive.onClose (some fixture.patchingClose)) [] rfl h2 hc⟩

/-- C9 fails as stated.  `f := rebindingAccept` counts its runs and applies the kept
directive `OnAccept(laterAccept)` to the wrapper it is bound in.  The first Accept
on `Wrap(lheapListener, OnAccept(f))` runs `f`; the second one runs `laterAccept`:
it does not invoke `f` (the run counter stays at 1) and does not return what `f`
returns.  (The last conjunct: the struct found after the first Accept is what the
closure of `OnAccept(laterAccept)` makes of the struct before it.) -/
theorem wlistener_accept_override_counterexample :
    wlistener.Wrap (some fixture.lheapListener)
        [wlistener.OnAccept (some fixture.rebindingAccept)] fixture.lheap0
      = .ret (fixture.acceptWrapper fixture.lheap0) fixture.lheap0 ∧
    (fixture.acceptWrapper fixture.lheap0).Accept fixture.lheap0
      = .ret (none, some "from f") { rebound := true, calls := 1 } ∧
    (fixture.acceptWrapper { rebound := true, calls := 1 }).Accept
        { rebound := true, calls := 1 }
      = .ret (none, some "from the kept directive") { rebound := true, calls := 1 } ∧
    fixture.rebindingAccept { rebound := true, calls := 1 }
      = .ret (none, some "from f") { rebound := true, calls := 2 } ∧
    Go.twice (fun w => (fixture.acceptWrapper w).Accept w) fixture.lheap0
      = .ret ((none, some "from f"), (none, some "from the kept directive"))
          { rebound := true, calls := 1 } ∧
    (fixture.acceptWrapper { rebound := true, calls := 1 }).Accept
        { rebound := true, calls := 1 }
      ≠ fixture.rebindingAccept { rebound := true, calls := 1 } ∧
    Go.call1 (wlistener.OnAccept (some fixture.laterAccept))
        (fixture.acceptWrapper fixture.lheap0) fixture.lheap0
      = .ret (fixture.acceptWrapper { rebound := true, calls := 1 }) fixture.lheap0 := by
  refine ⟨rfl, rfl, rfl, rfl, rfl, ?_, rfl⟩
  intro h
  have h1 : (some "from the kept directive" : Go.Error) = some "from f" :=
    congrArg Prod.snd (Go.Outcome.ret.inj h).1
  exact absurd h1 (by decide)

/-- C9 as amended (accept override): for every original listener `l` and every
accept function `f`, `Wrap(l, OnAccept(f))` returns a wrapper whose accept slot
holds `f`, and each call of Accept made while the accept slot still holds what
`Wrap` bound has exactly the outcome of one run of `f` (result and effect; nothing
of `l` runs).  So when `f` returns a fake connection and no error in `w0`, leaving
`w1`, and an error in `w1`, leaving `w2`, and the slot still holds `f` at both
calls, two successive Accept calls started in `w0` return first the fake connection
with nil error, then the error, and leave `w2`. -/
theorem wlistener_accept_override_while_bound {W : Type} (l : net.ListenerMethods W)
    (f : Go.Eff W (net.Conn W × Go.Error)) (w : W) :
    ∃ wl, wlistener.Wrap (some l) [wlistener.OnAccept (some f)] w = .ret wl w ∧
      wl.onAccept = some f ∧
      ∀ (p : wlistener.Ptr W),
        (∀ w1, wlistener.SlotEq .accept (p w1) wl → (p w1).Accept w1 = f w1) ∧
        (∀ fc e w0 w1 w2, wlistener.SlotEq .accept (p w0) wl →
          f w0 = .ret (some fc, none) w1 → wlistener.SlotEq .accept (p w1) wl →
          f w1 = .ret (none, some e) w2 →
          Go.twice (fun w => (p w).Accept w) w0
            = .ret ((some fc, none), (none, some e)) w2) := by
  refine ⟨_, rfl, rfl, ?_⟩
  intro p
  have hcall : ∀ w1, wlistener.SlotEq .accept (p w1)
      (wlistener.Directive.run (wlistener.Directive.onAccept (some f))
        (wlistener.initial l)) → (p w1).Accept w1 = f w1 := by
    intro w1 h
    have h1 : (p w1).onAccept = some f := h
    simp [wlistener.WrappedListener.Accept, h1, Go.call0]
  refine ⟨hcall, ?_⟩
  intro fc e w0 w1 w2 hs0 h0 hs1 h1
  simp only [Go.twice, Go.Eff.bind, hcall w0 hs0, h0, hcall w1 hs1, h1]

/-- C9 as amended, at a concrete input: the scripted accept function, which leaves
the wrapper alone, on the pipe listener; the two Accept calls return the fake
connection, then the error; the script ran twice and the listener itself accepted
nothing. -/
theorem wlistener_accept_override_while_bound_witness :
    fixture.scriptedAccept fixture.world0
      = .ret (some fixture.fakeConn, none) { fixture.world0 with scripted := 1 } ∧
    fixture.scriptedAccept { fixture.world0 with scripted := 1 }
      = .ret (none, some "no more connections") { fixture.world0 with scripted := 2 } ∧
    ∃ wl, wlistener.Wrap (some fixture.pipeListener)
        [wlistener.OnAccept (some fixture.scriptedAccept)] fixture.world0
        = .ret wl fixture.world0 ∧
      Go.twice (fun w => ((fun _ => wl : wlistener.Ptr fixture.World) w).Accept w)
          fixture.world0
        = .ret ((some fixture.fakeConn, none), (none, some "no more connections"))
            { fixture.world0 with scripted := 2, accepted := 0 } := by
  obtain ⟨wl, hwl, _, h⟩ := wlistener_accept_override_while_bound fixture.pipeListener
    fixture.scriptedAccept fixture.world0
  exact ⟨rfl, rfl, wl, hwl,
    (h (fun _ => wl)).2 fixture.fakeConn "no more connections" fixture.world0
      { fixture.world0 with scripted := 1 } { fixture.world0 with scripted := 2 }
      (wlistener.listener_slotEq_refl _ _) rfl (wlistener.listener_slotEq_refl _ _) rfl⟩

/-! ## Layered wrapping: the outer wrapper calls through the pointer to the inner one -/

namespace wconn

open Go

end wconn

namespace wlistener

open Go

end wlistener

